import Mathlib

set_option maxRecDepth 8000
set_option exponentiation.threshold 1100

/-!
Verification development for the option-chain client in
tdameritrade/optionChain.go.

Modelling conventions, fixed once for the whole file:

* Go float64 values are modelled exactly: a decimal literal is kept as an
  exact scaled decimal (mantissa times a power of ten, both integers), so
  IEEE-754 rounding of in-range values is abstracted away, while the
  range error strconv.ParseFloat reports for literals beyond the float64
  overflow threshold is modelled exactly; the rational value of a decimal
  is only used inside proofs.  The special values NaN and the infinities
  are explicit constructors.
* Go strings are Lean String values; character-level operations are
  written over String.toList so that every definition evaluates by kernel
  reduction on concrete inputs.
* Go maps (map[string]T) are association lists in iteration order.  Go map
  iteration order is unspecified, so theorems either quantify over the
  order or state order-insensitive (permutation) facts.
* A Go function that can return an error is modelled with Except or an
  explicit outcome type; a Go runtime panic (out-of-range index) is a
  distinct outcome constructor, never an error value.
-/

deriving instance DecidableEq for Except

namespace TDA

/-- Exact scaled-decimal model of a Go float64 numeric value: the value is
man * 10 ^ exp.  Two representations of the same value need not be equal;
value-level comparison goes through Dec.toRat. -/
structure Dec where
  man : Int
  exp : Int
  deriving DecidableEq

/-- The zero float64 value. -/
def zeroDec : Dec := ⟨0, 0⟩

/-- Rational value of a scaled decimal (proof-side semantics only). -/
def Dec.toRat (d : Dec) : ℚ := (d.man : ℚ) * 10 ^ d.exp

/-- Value-level comparison of two scaled decimals by cross-scaling with a
nonnegative power of ten, so that it evaluates by kernel reduction. -/
def Dec.ble (a b : Dec) : Bool :=
  if a.exp ≤ b.exp then
    decide (a.man ≤ b.man * 10 ^ (b.exp - a.exp).toNat)
  else
    decide (a.man * 10 ^ (a.exp - b.exp).toNat ≤ b.man)

/-- Model of a Go float64: an exact finite decimal, an infinity, or NaN. -/
inductive GoFloat where
  | finite (d : Dec)
  | inf (neg : Bool)
  | nan
  deriving DecidableEq

/-- The is-NaN test on the float model (math.IsNaN). -/
def GoFloat.isNaN : GoFloat → Bool
  | .nan => true
  | _ => false

/-- Numeric value of a list of decimal digit characters, most significant
first (the accumulator loop shared by all the digit parsers). -/
def digitsVal (ds : List Char) : Nat :=
  ds.foldl (fun a c => 10 * a + (c.toNat - 48)) 0

/-- The split of a numeric literal into its components: sign, integer-part
digits, fraction digits, exponent sign and exponent digits (none when the
literal has no exponent part). -/
structure FloatParts where
  neg : Bool
  intDs : List Char
  fracDs : List Char
  expNeg : Bool
  expDs : Option (List Char)
  deriving DecidableEq

/-- Exact value of a component split: the digit string intDs.fracDs scaled
by the signed exponent, as a scaled decimal. -/
def FloatParts.toDec (p : FloatParts) : Dec :=
  let mag : Int := (digitsVal (p.intDs ++ p.fracDs) : Int)
  let man : Int := if p.neg then -mag else mag
  let e : Int :=
    (match p.expDs with
     | none => 0
     | some ds => if p.expNeg then -(digitsVal ds : Int) else (digitsVal ds : Int))
  ⟨man, e - (p.fracDs.length : Int)⟩

/-- Parse an exponent suffix and require the end of input: empty input is
accepted (no exponent), otherwise the form is e or E, an optional sign and
at least one digit.  The Go float syntax (strconv.ParseFloat) and the JSON
number grammar (RFC 8259) have this identical exponent form, so both
parsers below share this tail. -/
def expTail (neg : Bool) (intDs fracDs : List Char) : List Char → Option FloatParts
  | [] => some ⟨neg, intDs, fracDs, false, none⟩
  | c :: r =>
    if c = 'e' ∨ c = 'E' then
      let (esign, r2) : Bool × List Char :=
        match r with
        | '+' :: t => (false, t)
        | '-' :: t => (true, t)
        | _ => (false, r)
      let es := r2.takeWhile Char.isDigit
      let r3 := r2.dropWhile Char.isDigit
      if es = [] ∨ r3 ≠ [] then none else some ⟨neg, intDs, fracDs, esign, some es⟩
    else none

/-- The sign prefix a JSON number may carry: a single optional minus. -/
def jsonSign : List Char → Bool × List Char
  | '-' :: r => (true, r)
  | cs => (false, cs)

/-- A JSON number after its optional sign (RFC 8259 number grammar, the
grammar encoding/json accepts for a number): an integer part that is 0 or
starts with a nonzero digit, an optional fraction with at least one digit,
an optional exponent. -/
def jsonNumAfterSign (neg : Bool) (cs1 : List Char) : Option FloatParts :=
  let ds := cs1.takeWhile Char.isDigit
  let rest := cs1.dropWhile Char.isDigit
  if ds = [] then none
  else if ds.headI = '0' ∧ ds.length ≠ 1 then none
  else
    match rest with
    | '.' :: r2 =>
      let fs := r2.takeWhile Char.isDigit
      let r3 := r2.dropWhile Char.isDigit
      if fs = [] then none else expTail neg ds fs r3
    | _ => expTail neg ds [] rest

/-- Component split of a JSON number token. -/
def jsonNumParts (cs : List Char) : Option FloatParts :=
  let (neg, cs1) := jsonSign cs
  jsonNumAfterSign neg cs1

/-- Exact value of a JSON number token, when the token matches the JSON
number grammar. -/
def jsonNumVal (s : String) : Option Dec :=
  (jsonNumParts s.toList).map FloatParts.toDec

/-- Go decimal mantissa (strconv readFloat): digits with at most one dot
among them, at least one digit in total; returns integer digits, fraction
digits and the remaining input. -/
def goMantissa (cs : List Char) : Option (List Char × List Char × List Char) :=
  let ds := cs.takeWhile Char.isDigit
  let rest := cs.dropWhile Char.isDigit
  match rest with
  | '.' :: r2 =>
    let fs := r2.takeWhile Char.isDigit
    let r3 := r2.dropWhile Char.isDigit
    if ds = [] ∧ fs = [] then none else some (ds, fs, r3)
  | _ => if ds = [] then none else some (ds, [], rest)

/-- The sign prefix strconv.ParseFloat accepts: one optional plus or
minus. -/
def goSign : List Char → Bool × List Char
  | '-' :: r => (true, r)
  | '+' :: r => (false, r)
  | cs => (false, cs)

/-- A ParseFloat decimal literal after its optional sign: a mantissa and
an optional exponent. -/
def goFloatAfterSign (neg : Bool) (cs1 : List Char) : Option FloatParts :=
  match goMantissa cs1 with
  | none => none
  | some (ds, fs, rest) => expTail neg ds fs rest

/-- Component split of a decimal literal accepted by strconv.ParseFloat:
an optional sign (plus or minus), a mantissa, an optional exponent.
Hexadecimal mantissas and digit-separating underscores, which Go also
accepts but which can never occur in a serialized JSON token, are omitted. -/
def goFloatParts (cs : List Char) : Option FloatParts :=
  let (neg, cs1) := goSign cs
  goFloatAfterSign neg cs1

/-- Case-insensitive equality of a character list with a pattern, consuming
the whole input (strconv special-form matching requires the match to reach
the end of the string). -/
def lowerEq : List Char → List Char → Bool
  | [], [] => true
  | c :: r, d :: s => c.toLower = d.toLower && lowerEq r s
  | _, _ => false

/-- The infinity alternatives of strconv special-form matching: after an
optional sign, inf or infinity, case-insensitively. -/
def infCheck (neg : Bool) (t : List Char) : Option GoFloat :=
  if lowerEq t "inf".toList ∨ lowerEq t "infinity".toList then some (.inf neg) else none

/-- strconv.ParseFloat special forms: an optionally signed infinity, or an
unsigned NaN, case-insensitively, consuming the whole input (a sign
followed by nan is not special, mirroring the fallthrough in strconv's
special routine, which only checks the infinity forms after a sign). -/
def goSpecial (cs : List Char) : Option GoFloat :=
  match cs with
  | [] => none
  | c :: r =>
    if c = '+' ∨ c = '-' then infCheck (c = '-') r
    else if c = 'i' ∨ c = 'I' then infCheck false (c :: r)
    else if c = 'n' ∨ c = 'N' then
      if lowerEq (c :: r) "nan".toList then some .nan else none
    else none

/-- Whether the exact magnitude of a decimal reaches the float64 overflow
threshold 2 ^ 1024 - 2 ^ 970: half a unit in the last place above the
largest finite float64 (2 ^ 1024 - 2 ^ 971), the point from which correct
rounding with ties to even yields infinity.  strconv.ParseFloat reports
ErrRange exactly for literals whose magnitude reaches this threshold. -/
def Dec.overflowsF64 (d : Dec) : Bool :=
  if 0 ≤ d.exp then
    decide ((2 ^ 1024 - 2 ^ 970 : Nat) ≤ d.man.natAbs * 10 ^ d.exp.toNat)
  else
    decide ((2 ^ 1024 - 2 ^ 970 : Nat) * 10 ^ (-d.exp).toNat ≤ d.man.natAbs)

/-- The pair strconv.ParseFloat returns: a float64 value together with a
possibly non-nil error (the range error comes with the signed infinity
the conversion overflowed to, the syntax error with a zero value). -/
inductive ParseFloatOut where
  | ok (f : GoFloat)
  | err (f : GoFloat) (msg : String)
  deriving DecidableEq

/-- Model of strconv.ParseFloat(s, 64): first the special forms, then the
decimal literal grammar.  A literal whose magnitude reaches the float64
overflow threshold yields the signed infinity together with the ErrRange
error, as in Go.  In-range values are kept exact (see the header note):
rounding to the nearest float64, and in particular the silent rounding to
zero of underflowing literals such as 1e-999 (which Go reports with a nil
error), is abstracted away. -/
def goParseFloat (s : String) : ParseFloatOut :=
  match goSpecial s.toList with
  | some f => .ok f
  | none =>
    match goFloatParts s.toList with
    | none => .err (.finite zeroDec)
        ("strconv.ParseFloat: parsing " ++ s ++ ": invalid syntax")
    | some p =>
      if p.toDec.overflowsF64 then
        .err (.inf p.neg) ("strconv.ParseFloat: parsing " ++ s ++ ": value out of range")
      else .ok (.finite p.toDec)

/-- naNFloat.UnmarshalJSON (optionChain.go lines 61-72): if the raw token
bytes are exactly the five characters of the quoted string NaN, produce
IEEE NaN; otherwise strconv.ParseFloat the raw bytes, propagating its
error (a range error included) and keeping the value otherwise. -/
def naNFloatUnmarshal (b : String) : Except String GoFloat :=
  if b = "\"NaN\"" then .ok .nan
  else
    match goParseFloat b with
    | .ok f => .ok f
    | .err _ msg => .error msg

/-- Model of strconv.Atoi: an optional sign and at least one digit,
consuming the whole string; out-of-int64-range values are an error (Go
reports ErrRange together with a clamped value, and every caller in this
file treats a non-nil error as failure). -/
def goAtoi (s : String) : Option Int :=
  let (neg, ds) : Bool × List Char :=
    match s.toList with
    | '+' :: r => (false, r)
    | '-' :: r => (true, r)
    | _ => (false, s.toList)
  if ds = [] ∨ ¬ ds.all Char.isDigit then none
  else
    let v : Int := if neg then -(digitsVal ds : Int) else (digitsVal ds : Int)
    if v < -(2 ^ 63) ∨ v > 2 ^ 63 - 1 then none else some v

/-- A calendar date as parsed by time.Parse with layout 2006-01-02.  The
zero Go time.Time renders as year 1, month 1, day 1. -/
structure GoDate where
  year : Nat
  month : Nat
  day : Nat
  deriving DecidableEq

/-- The zero time.Time value, as a calendar date. -/
def zeroDate : GoDate := ⟨1, 1, 1⟩

/-- Gregorian leap-year rule (time.isLeap). -/
def isLeap (y : Nat) : Bool := y % 4 = 0 && (y % 100 ≠ 0 || y % 400 = 0)

/-- Days in a month (time.daysIn). -/
def daysInMonth (y m : Nat) : Nat :=
  if m = 2 then (if isLeap y then 29 else 28)
  else if m = 4 ∨ m = 6 ∨ m = 9 ∨ m = 11 then 30
  else 31

/-- Model of time.Parse with the fixed layout 2006-01-02: exactly four year
digits, a dash, two month digits, a dash, two day digits, nothing after;
then the month must be 1..12 and the day must be in range for the month
(time.Parse rejects out-of-range components). -/
def parseGoDate (s : String) : Option GoDate :=
  match s.toList with
  | [y1, y2, y3, y4, '-', m1, m2, '-', d1, d2] =>
    if (y1.isDigit && y2.isDigit && y3.isDigit && y4.isDigit
        && m1.isDigit && m2.isDigit && d1.isDigit && d2.isDigit) then
      let y := digitsVal [y1, y2, y3, y4]
      let m := digitsVal [m1, m2]
      let d := digitsVal [d1, d2]
      if 1 ≤ m ∧ m ≤ 12 ∧ 1 ≤ d ∧ d ≤ daysInMonth y m then some ⟨y, m, d⟩ else none
    else none
  | _ => none

/-- Split a character list on every occurrence of a separator character;
the result always has at least one (possibly empty) piece.  This is
strings.Split for a one-character separator, written structurally so that
it evaluates by kernel reduction. -/
def splitChar (sep : Char) : List Char → List (List Char)
  | [] => [[]]
  | c :: r =>
    match splitChar sep r with
    | [] => [[]]
    | h :: t => if c = sep then [] :: h :: t else (c :: h) :: t

/-- strings.Split(s, sep) for a one-character separator. -/
def goSplit (s : String) (sep : Char) : List String :=
  (splitChar sep s.toList).map String.mk

/-- One deliverable record of an option contract (the inner anonymous
struct of OptionData, optionChain.go lines 106-111). -/
structure Deliverable where
  Symbol : String
  AssetType : String
  DeliverableUnits : String
  CurrencyType : String
  deriving DecidableEq

/-- The public OptionData struct (optionChain.go lines 74-122).  Go's
float64 becomes Dec, except that the fields filled from a naNFloat in the
raw decoding struct (lines 144-149 and 153) can carry the NaN sentinel and
so become GoFloat; TheoreticalVolatility is filled from a plain float64
(line 154) and therefore stays Dec. -/
structure OptionData where
  PutCall : String
  Symbol : String
  Description : String
  ExchangeName : String
  BidPrice : Dec
  AskPrice : Dec
  MarkPrice : Dec
  BidSize : Int
  AskSize : Int
  LastSize : Int
  HighPrice : Dec
  LowPrice : Dec
  OpenPrice : Dec
  ClosePrice : Dec
  TotalVolume : Int
  QuoteTimeInLong : Int
  TradeTimeInLong : Int
  NetChange : Dec
  Volatility : GoFloat
  Delta : GoFloat
  Gamma : GoFloat
  Theta : GoFloat
  Vega : GoFloat
  Rho : GoFloat
  TimeValue : Dec
  OpenInterest : Dec
  IsInTheMoney : Bool
  TheoreticalOptionValue : GoFloat
  TheoreticalVolatility : Dec
  IsMini : Bool
  IsNonStandard : Bool
  OptionDeliverablesList : List Deliverable
  StrikePrice : Dec
  ExpirationDate : Int
  ExpirationType : String
  Multiplier : Dec
  SettlementType : String
  DeliverableNote : String
  IsIndexOption : Bool
  PercentChange : Dec
  MarkChange : Dec
  MarkPercentChange : Dec
  deriving DecidableEq

/-- The zero OptionData value (what a freshly made Go slice element holds). -/
def zeroOptionData : OptionData :=
  ⟨"", "", "", "", zeroDec, zeroDec, zeroDec, 0, 0, 0, zeroDec, zeroDec, zeroDec,
   zeroDec, 0, 0, 0, zeroDec, .finite zeroDec, .finite zeroDec, .finite zeroDec,
   .finite zeroDec, .finite zeroDec, .finite zeroDec, zeroDec, zeroDec, false,
   .finite zeroDec, zeroDec, false, false, [], zeroDec, 0, "", zeroDec, "", "",
   false, zeroDec, zeroDec, zeroDec⟩

instance : Inhabited OptionData := ⟨zeroOptionData⟩

/-- The numeric fields of the raw decoding struct of
OptionData.UnmarshalJSON (optionChain.go lines 125-173), each as the raw
JSON token encoding/json would hand to that field's decoder; none means
the field is absent from the JSON object (the Go field then keeps its zero
value).  The string, bool, int and deliverable-list fields carry their
already-decoded values: their decoding is standard encoding/json behaviour
with no logic of this repository in it. -/
structure RawOptionData where
  PutCall : String
  Symbol : String
  Description : String
  ExchangeName : String
  BidPrice : Option String
  AskPrice : Option String
  MarkPrice : Option String
  BidSize : Int
  AskSize : Int
  LastSize : Int
  HighPrice : Option String
  LowPrice : Option String
  OpenPrice : Option String
  ClosePrice : Option String
  TotalVolume : Int
  QuoteTimeInLong : Int
  TradeTimeInLong : Int
  NetChange : Option String
  Volatility : Option String
  Delta : Option String
  Gamma : Option String
  Theta : Option String
  Vega : Option String
  Rho : Option String
  TimeValue : Option String
  OpenInterest : Option String
  IsInTheMoney : Bool
  TheoreticalOptionValue : Option String
  TheoreticalVolatility : Option String
  IsMini : Bool
  IsNonStandard : Bool
  OptionDeliverablesList : List Deliverable
  StrikePrice : Option String
  ExpirationDate : Int
  ExpirationType : String
  Multiplier : Option String
  SettlementType : String
  DeliverableNote : String
  IsIndexOption : Bool
  PercentChange : Option String
  MarkChange : Option String
  MarkPercentChange : Option String
  deriving DecidableEq

/-- encoding/json decoding of a plain float64 struct field: a JSON number
token within float64 range yields its exact value, a number token at or
beyond the overflow threshold is an error (encoding/json converts through
strconv.ParseFloat and turns its range failure into an unmarshal error),
a JSON null leaves the zero value untouched, an absent field keeps the
zero value, and any other token is an error. -/
def decodePlainFloatField : Option String → Except String Dec
  | none => .ok zeroDec
  | some t =>
    if t = "null" then .ok zeroDec
    else
      match jsonNumVal t with
      | some d =>
        if d.overflowsF64 then
          .error ("json: cannot unmarshal number " ++ t ++ " into Go value of type float64")
        else .ok d
      | none => .error ("json: cannot unmarshal " ++ t ++ " into Go value of type float64")

/-- encoding/json decoding of a naNFloat struct field: an absent field
keeps the zero value; a present token (a JSON null included) is handed to
naNFloat.UnmarshalJSON. -/
def decodeNaNField : Option String → Except String GoFloat
  | none => .ok (.finite zeroDec)
  | some t => naNFloatUnmarshal t

/-- OptionData.UnmarshalJSON (optionChain.go lines 124-221): decode the raw
struct field by field (naNFloat fields through the sentinel decoder, plain
float64 fields as numbers), then copy into the public struct. -/
def optionDataUnmarshal (r : RawOptionData) : Except String OptionData := do
  let bidPrice ← decodePlainFloatField r.BidPrice
  let askPrice ← decodePlainFloatField r.AskPrice
  let markPrice ← decodePlainFloatField r.MarkPrice
  let highPrice ← decodePlainFloatField r.HighPrice
  let lowPrice ← decodePlainFloatField r.LowPrice
  let openPrice ← decodePlainFloatField r.OpenPrice
  let closePrice ← decodePlainFloatField r.ClosePrice
  let netChange ← decodePlainFloatField r.NetChange
  let volatility ← decodeNaNField r.Volatility
  let delta ← decodeNaNField r.Delta
  let gamma ← decodeNaNField r.Gamma
  let theta ← decodeNaNField r.Theta
  let vega ← decodeNaNField r.Vega
  let rho ← decodeNaNField r.Rho
  let timeValue ← decodePlainFloatField r.TimeValue
  let openInterest ← decodePlainFloatField r.OpenInterest
  let theoreticalOptionValue ← decodeNaNField r.TheoreticalOptionValue
  let theoreticalVolatility ← decodePlainFloatField r.TheoreticalVolatility
  let strikePrice ← decodePlainFloatField r.StrikePrice
  let multiplier ← decodePlainFloatField r.Multiplier
  let percentChange ← decodePlainFloatField r.PercentChange
  let markChange ← decodePlainFloatField r.MarkChange
  let markPercentChange ← decodePlainFloatField r.MarkPercentChange
  return { PutCall := r.PutCall, Symbol := r.Symbol, Description := r.Description,
           ExchangeName := r.ExchangeName, BidPrice := bidPrice, AskPrice := askPrice,
           MarkPrice := markPrice, BidSize := r.BidSize, AskSize := r.AskSize,
           LastSize := r.LastSize, HighPrice := highPrice, LowPrice := lowPrice,
           OpenPrice := openPrice, ClosePrice := closePrice, TotalVolume := r.TotalVolume,
           QuoteTimeInLong := r.QuoteTimeInLong, TradeTimeInLong := r.TradeTimeInLong,
           NetChange := netChange, Volatility := volatility, Delta := delta,
           Gamma := gamma, Theta := theta, Vega := vega, Rho := rho,
           TimeValue := timeValue, OpenInterest := openInterest,
           IsInTheMoney := r.IsInTheMoney,
           TheoreticalOptionValue := theoreticalOptionValue,
           TheoreticalVolatility := theoreticalVolatility, IsMini := r.IsMini,
           IsNonStandard := r.IsNonStandard,
           OptionDeliverablesList := r.OptionDeliverablesList,
           StrikePrice := strikePrice, ExpirationDate := r.ExpirationDate,
           ExpirationType := r.ExpirationType, Multiplier := multiplier,
           SettlementType := r.SettlementType, DeliverableNote := r.DeliverableNote,
           IsIndexOption := r.IsIndexOption, PercentChange := percentChange,
           MarkChange := markChange, MarkPercentChange := markPercentChange }

/-- One expiration's contracts on one side (the anonymous struct of the
Calls and Puts slices, optionChain.go lines 259-268). -/
structure ExpirationGroup where
  ExpDate : GoDate
  DaysTilExp : Int
  Strikes : List OptionData
  deriving DecidableEq

/-- The zero ExpirationGroup (what make fills the Calls and Puts slices
with before the loops run). -/
def zeroGroup : ExpirationGroup := ⟨zeroDate, 0, []⟩

/-- Ordering of contracts by strike price, at the value level of the exact
decimals.  sort.Slice sorts with the strict less on float64 (line 374);
its output order is any order with no pair out of order under that less,
which is exactly sortedness under this non-strict relation. -/
def strikeLE (a b : OptionData) : Prop := a.StrikePrice.ble b.StrikePrice = true

instance : DecidableRel strikeLE := fun a b =>
  inferInstanceAs (Decidable (a.StrikePrice.ble b.StrikePrice = true))

/-- The sort of a strike slice (sort.Slice at lines 373-375 and 397-399).
sort.Slice is an unspecified unstable comparison sort; it is modelled by
insertion sort, one conforming result.  Every property proved about sorted
output (sortedness, length, membership, permutation) holds for any
conforming sort. -/
def sortStrikes (l : List OptionData) : List OptionData := l.insertionSort strikeLE

/-- Ordering of expiration groups by days to expiration (the less function
of the sorts at lines 379-381 and 403-405). -/
def daysLE (a b : ExpirationGroup) : Prop := a.DaysTilExp ≤ b.DaysTilExp

instance : DecidableRel daysLE := fun a b =>
  inferInstanceAs (Decidable (a.DaysTilExp ≤ b.DaysTilExp))

/-- The sort of the Calls or Puts slice by days to expiration. -/
def sortGroups (l : List ExpirationGroup) : List ExpirationGroup := l.insertionSort daysLE

/-- The underlying quote block (identical anonymous structs at lines
226-250 and 275-299; the Go code copies it field by field between the two,
modelled here as one structure copied whole). -/
structure Underlying where
  Ask : Dec
  AskSize : Int
  Bid : Dec
  BidSize : Int
  Change : Dec
  Close : Dec
  Delayed : Bool
  Description : String
  ExchangeName : String
  FiftyTwoWeekHigh : Dec
  FiftyTwoWeekLow : Dec
  HighPrice : Dec
  Last : Dec
  LowPrice : Dec
  Mark : Dec
  MarkChange : Dec
  MarkPercentChange : Dec
  OpenPrice : Dec
  PercentChange : Dec
  QuoteTime : Int
  Symbol : String
  TotalVolume : Int
  TradeTime : Int
  deriving DecidableEq

/-- The zero Underlying value. -/
def zeroUnderlying : Underlying :=
  ⟨zeroDec, 0, zeroDec, 0, zeroDec, zeroDec, false, "", "", zeroDec, zeroDec,
   zeroDec, zeroDec, zeroDec, zeroDec, zeroDec, zeroDec, zeroDec, zeroDec, 0, "", 0, 0⟩

/-- The public OptionChain struct (optionChain.go lines 223-269). -/
structure OptionChain where
  Symbol : String
  Status : String
  Underlying : Underlying
  Strategy : String
  Interval : Dec
  IsDelayed : Bool
  IsIndex : Bool
  DaysToExpiration : Dec
  InterestRate : Dec
  UnderlyingPrice : Dec
  Volatility : Dec
  Calls : List ExpirationGroup
  Puts : List ExpirationGroup
  deriving DecidableEq

/-- The zero OptionChain (the state of new(OptionChain) before any decode
touches it). -/
def zeroOptionChain : OptionChain :=
  ⟨"", "", zeroUnderlying, "", zeroDec, false, false, zeroDec, zeroDec, zeroDec,
   zeroDec, [], []⟩

/-- The raw decoding struct of OptionChain.UnmarshalJSON (lines 272-310)
after the json.Unmarshal of line 311 succeeded: scalars and the underlying
block are decoded, and the two expiration maps hold fully decoded
OptionData values behind their composite keys (encoding/json decodes the
map values, through OptionData.UnmarshalJSON, before the key loops run).
The maps are association lists in Go map iteration order, the inner maps
likewise with their strike-price keys. -/
structure RawOptionChain where
  Symbol : String
  Status : String
  Underlying : Underlying
  Strategy : String
  Interval : Dec
  IsDelayed : Bool
  IsIndex : Bool
  DaysToExpiration : Dec
  InterestRate : Dec
  UnderlyingPrice : Dec
  Volatility : Dec
  CallExpDateMap : List (String × List (String × List OptionData))
  PutExpDateMap : List (String × List (String × List OptionData))
  deriving DecidableEq

/-- Outcome of processing one composite-key entry: a finished group, an
error return with the partially assigned slice element the Go code leaves
behind, or a runtime panic. -/
inductive EntryOut where
  | ok (g : ExpirationGroup)
  | err (g : ExpirationGroup) (msg : String)
  | panicked (msg : String)
  deriving DecidableEq

/-- Unwrap each strike entry's wrapped record list to its element 0
(optionData[0] at lines 370 and 394): an empty wrapped list is an
index-out-of-range panic; any elements past the first are ignored. -/
def unwrapStrikes : List (String × List OptionData) → Option (List OptionData)
  | [] => some []
  | (_, []) :: _ => none
  | (_, od :: _) :: rest => (unwrapStrikes rest).map (od :: ·)

/-- Process one composite-key entry of an expiration map (the loop body at
lines 359-377 and 383-401): split the key on the colon, time.Parse part 0
as a date (on error Go returns, leaving the zero time in the slice
element), strconv.Atoi part 1 (indexing part 1 of a splitless key is an
out-of-range panic; on an Atoi error Go returns, leaving the parsed date
and a zero count), unwrap each strike list to its element 0, and sort the
strikes by strike price. -/
def processEntry (dateStr : String) (v : List (String × List OptionData)) : EntryOut :=
  let dateParts := goSplit dateStr ':'
  match parseGoDate dateParts.headI with
  | none =>
    .err zeroGroup ("parsing time " ++ dateParts.headI ++ " as 2006-01-02: cannot parse")
  | some d =>
    match dateParts[1]? with
    | none => .panicked "runtime error: index out of range"
    | some numStr =>
      match goAtoi numStr with
      | none =>
        .err ⟨d, 0, []⟩ ("strconv.Atoi: parsing " ++ numStr ++ ": invalid syntax")
      | some n =>
        match unwrapStrikes v with
        | none => .panicked "runtime error: index out of range"
        | some strikes => .ok ⟨d, n, sortStrikes strikes⟩

/-- Outcome of one expiration-map loop: the groups in entry order, or an
early error return together with the slice state Go leaves behind (the
already processed prefix, the partially assigned current element, and
zero-valued elements for the unreached entries of the preallocated
slice), or a panic. -/
inductive MapLoopOut where
  | done (gs : List ExpirationGroup)
  | failed (gs : List ExpirationGroup) (msg : String)
  | panicked (msg : String)
  deriving DecidableEq

/-- One expiration-map loop (lines 357-378 and 382-402), entry by entry. -/
def processExpMap : List (String × List (String × List OptionData)) → MapLoopOut
  | [] => .done []
  | (k, v) :: rest =>
    match processEntry k v with
    | .panicked m => .panicked m
    | .err g m => .failed (g :: rest.map (fun _ => zeroGroup)) m
    | .ok g =>
      match processExpMap rest with
      | .done gs => .done (g :: gs)
      | .failed gs m => .failed (g :: gs) m
      | .panicked m => .panicked m

/-- Outcome of a whole decode against a receiver that Go mutates in place:
success with the final receiver, an error return with the receiver state at
the early return, or a panic (after which no state is observable). -/
inductive DecodeOutcome (α : Type) where
  | ok (a : α)
  | errOut (a : α) (msg : String)
  | panicked (msg : String)
  deriving DecidableEq

/-- The receiver state after the assignments of lines 314-356: every
scalar and the underlying block copied from the raw tree, Calls and Puts
preallocated at the map sizes with zero-valued elements. -/
def copiedChain (raw : RawOptionChain) : OptionChain :=
  { Symbol := raw.Symbol, Status := raw.Status, Underlying := raw.Underlying,
    Strategy := raw.Strategy, Interval := raw.Interval, IsDelayed := raw.IsDelayed,
    IsIndex := raw.IsIndex, DaysToExpiration := raw.DaysToExpiration,
    InterestRate := raw.InterestRate, UnderlyingPrice := raw.UnderlyingPrice,
    Volatility := raw.Volatility,
    Calls := List.replicate raw.CallExpDateMap.length zeroGroup,
    Puts := List.replicate raw.PutExpDateMap.length zeroGroup }

/-- Whether a decode outcome is a success. -/
def DecodeOutcome.isOk {α : Type} : DecodeOutcome α → Bool
  | .ok _ => true
  | _ => false

/-- Whether a decode outcome is a runtime panic. -/
def DecodeOutcome.isPanicked {α : Type} : DecodeOutcome α → Bool
  | .panicked _ => true
  | _ => false

/-- OptionChain.UnmarshalJSON after the json.Unmarshal of line 311
succeeded (lines 314-406): copy every scalar and the underlying block,
preallocate Calls and Puts at the map sizes, run the calls loop, sort
Calls by days to expiration, run the puts loop, sort Puts.  The receiver
argument is the chain value before the decode; every one of its fields is
overwritten before the loops run, which is why it does not appear on the
right-hand side. -/
def chainUnmarshal (raw : RawOptionChain) (_c : OptionChain) : DecodeOutcome OptionChain :=
  let base := copiedChain raw
  match processExpMap raw.CallExpDateMap with
  | .panicked m => .panicked m
  | .failed gs m => .errOut { base with Calls := gs } m
  | .done callGs =>
    let base2 := { base with Calls := sortGroups callGs }
    match processExpMap raw.PutExpDateMap with
    | .panicked m => .panicked m
    | .failed gs m => .errOut { base2 with Puts := gs } m
    | .done putGs => .ok { base2 with Puts := sortGroups putGs }

/-- The chain a successful decode produces from the raw tree and the two
lists of groups its map loops built: every scalar copied, both group lists
sorted by days to expiration. -/
def normalizedChain (raw : RawOptionChain) (cg pg : List ExpirationGroup) : OptionChain :=
  { Symbol := raw.Symbol, Status := raw.Status, Underlying := raw.Underlying,
    Strategy := raw.Strategy, Interval := raw.Interval, IsDelayed := raw.IsDelayed,
    IsIndex := raw.IsIndex, DaysToExpiration := raw.DaysToExpiration,
    InterestRate := raw.InterestRate, UnderlyingPrice := raw.UnderlyingPrice,
    Volatility := raw.Volatility, Calls := sortGroups cg, Puts := sortGroups pg }

/-- validContractTypes (optionChain.go line 17). -/
def validContractTypes : List String := ["CALL", "PUT", "ALL"]

/-- validStrategies (line 18). -/
def validStrategies : List String :=
  ["SINGLE", "ANALYTICAL", "COVERED", "VERTICAL", "CALENDAR", "STRANGLE", "STRADDLE",
   "BUTTERFLY", "CONDOR", "DIAGONAL", "COLLAR", "ROLL"]

/-- validExpMonths (line 20). -/
def validExpMonths : List String :=
  ["JAN", "FEB", "MAR", "APR", "MAY", "JUN", "JUL", "AUG", "SEP", "OCT", "NOV", "DEC", "ALL"]

/-- validOptionTypes (line 21). -/
def validOptionTypes : List String := ["S", "NS", "ALL"]

/-- defaultContractType (line 25). -/
def defaultContractType : String := "ALL"

/-- defaultStrategy (line 26). -/
def defaultStrategy : String := "SINGLE"

/-- defaultExpMonth (line 28). -/
def defaultExpMonth : String := "ALL"

/-- defaultOptionType (line 29). -/
def defaultOptionType : String := "ALL"

/-- Modelled from the spec: the helper named contains that validate calls
is defined in another file of this repository, not present under src/;
the spec describes option validation as simple membership checks against
fixed string sets, so contains is string membership in a string list. -/
def contains (x : String) (l : List String) : Bool := l.contains x

/-- OptionChainOptions (optionChain.go lines 41-57).  The two time.Time
fields are carried opaquely (validate never reads them) and are modelled
by their epoch value. -/
structure OptionChainOptions where
  ContractType : String
  StrikeCount : Int
  IncludeQuotes : Option Bool
  Strategy : String
  Interval : Int
  Strike : Dec
  Range : String
  FromDate : Int
  ToDate : Int
  Volatility : Dec
  UnderlyingPrice : Dec
  InterestRate : Dec
  DaysToExpiration : Dec
  ExpMonth : String
  OptionType : String
  deriving DecidableEq

/-- The message of the fmt.Errorf calls in validate: fmt's rendering of a
string slice is the elements space-separated inside square brackets. -/
def errEnum (field : String) (l : List String) : String :=
  "invalid " ++ field ++ ", must have the value of one of the following [" ++
    String.intercalate " " l ++ "]"

/-- The optionType step of validate (lines 466-472), the last one. -/
def validateFromOptionType (o : OptionChainOptions) : OptionChainOptions × Option String :=
  if o.OptionType ≠ "" then
    if ¬ contains o.OptionType validOptionTypes then
      (o, some (errEnum "optionType" validOptionTypes))
    else (o, none)
  else ({ o with OptionType := defaultOptionType }, none)

/-- The expMonth step of validate (lines 458-464), then the optionType
step. -/
def validateFromExpMonth (o : OptionChainOptions) : OptionChainOptions × Option String :=
  if o.ExpMonth ≠ "" then
    if ¬ contains o.ExpMonth validExpMonths then
      (o, some (errEnum "expMonth" validExpMonths))
    else validateFromOptionType o
  else validateFromOptionType { o with ExpMonth := defaultExpMonth }

/-- The strategy step of validate (lines 450-456), then the remaining
steps. -/
def validateFromStrategy (o : OptionChainOptions) : OptionChainOptions × Option String :=
  if o.Strategy ≠ "" then
    if ¬ contains o.Strategy validStrategies then
      (o, some (errEnum "strategy" validStrategies))
    else validateFromExpMonth o
  else validateFromExpMonth { o with Strategy := defaultStrategy }

/-- OptionChainOptions.validate (lines 441-475): the four enumerated
fields in order, each defaulted in place when empty, rejected when a
non-member, passed through when a member; the first failing field aborts
with its error, leaving the mutations already made in place. -/
def validate (o : OptionChainOptions) : OptionChainOptions × Option String :=
  if o.ContractType ≠ "" then
    if ¬ contains o.ContractType validContractTypes then
      (o, some (errEnum "contractType" validContractTypes))
    else validateFromStrategy o
  else validateFromStrategy { o with ContractType := defaultContractType }

/-- What the service operation returns to its caller: a chain pointer (nil
or non-nil) and an error (nil or non-nil), or a propagated panic. -/
inductive ServiceResult where
  | ret (chain : Option OptionChain) (err : Option String)
  | panicked (msg : String)
  deriving DecidableEq

/-- OptionChainService.OptionChain on a response body that is well-formed
JSON (lines 411-439), starting from the decode the transport triggers.
Modelled from the spec: the transport client s.client.Do is defined in
another file of this repository, not present under src/; per the spec it
sends the request and decodes the response body into the fresh chain,
returning an error exactly when the body decode fails (transport-level
failures are out of scope).  On a decode error the method returns a nil
chain with the error (line 433); on success it returns the chain, with a
status-carrying error when Status is not SUCCESS (lines 435-437). -/
def fetchOptionChain (opts : Option OptionChainOptions) (raw : RawOptionChain) :
    ServiceResult :=
  match opts with
  | some o =>
    match (validate o).2 with
    | some e => .ret none (some e)
    | none => fetchDecoded raw
  | none => fetchDecoded raw
where
  fetchDecoded (raw : RawOptionChain) : ServiceResult :=
    match chainUnmarshal raw zeroOptionChain with
    | .panicked m => .panicked m
    | .errOut _ m => .ret none (some m)
    | .ok oc =>
      if oc.Status ≠ "SUCCESS" then .ret (some oc) (some ("error: " ++ oc.Status))
      else .ret (some oc) none

/-- The raw bytes of a JSON scalar token that is neither a number nor the
exact string token NaN: any other string token (its bytes begin with a
quote), a null or boolean literal, or the opening byte of an object or
array. -/
def jsonOtherTok (s : String) : Prop :=
  (s.toList.head? = some '"' ∧ s ≠ "\"NaN\"") ∨ s = "null" ∨ s = "true" ∨ s = "false" ∨
  s.toList.head? = some '{' ∨ s.toList.head? = some '['

/-- A composite key is well formed when it splits into at least two parts,
part 0 parses as a date and part 1 parses as an integer (what the loop
body requires to reach its strike processing). -/
def wfKey (k : String) : Bool :=
  match (goSplit k ':')[1]? with
  | none => false
  | some p2 => (parseGoDate (goSplit k ':').headI).isSome && (goAtoi p2).isSome

/-- Every composite key of both expiration maps is well formed. -/
def wfAllKeys (raw : RawOptionChain) : Prop :=
  ∀ e ∈ raw.CallExpDateMap ++ raw.PutExpDateMap, wfKey e.1 = true

instance (raw : RawOptionChain) : Decidable (wfAllKeys raw) := by
  unfold wfAllKeys
  infer_instance

/-- Every strike entry's wrapped record list, in both maps, is nonempty. -/
def allWrappedNonempty (raw : RawOptionChain) : Prop :=
  ∀ e ∈ raw.CallExpDateMap ++ raw.PutExpDateMap, ∀ s ∈ e.2, s.2 ≠ []

instance (raw : RawOptionChain) : Decidable (allWrappedNonempty raw) := by
  unfold allWrappedNonempty
  infer_instance

/-- Some strike entry's wrapped record list, in one of the maps, is empty. -/
def someWrappedEmpty (raw : RawOptionChain) : Prop :=
  ∃ e ∈ raw.CallExpDateMap ++ raw.PutExpDateMap, ∃ s ∈ e.2, s.2 = []

instance (raw : RawOptionChain) : Decidable (someWrappedEmpty raw) := by
  unfold someWrappedEmpty
  infer_instance

/-- The first record of every wrapped list of an expiration map, in entry
order: what the decode keeps of the map when every wrapped list is
nonempty. -/
def firstRecords (m : List (String × List (String × List OptionData))) : List OptionData :=
  m.flatMap fun e => e.2.map fun s => s.2.headI

/-- The four enumerated query fields after defaulting: an empty field
becomes its documented default, a nonempty one is kept. -/
def defaulted (o : OptionChainOptions) : OptionChainOptions :=
  { o with
      ContractType := if o.ContractType = "" then defaultContractType else o.ContractType,
      Strategy := if o.Strategy = "" then defaultStrategy else o.Strategy,
      ExpMonth := if o.ExpMonth = "" then defaultExpMonth else o.ExpMonth,
      OptionType := if o.OptionType = "" then defaultOptionType else o.OptionType }

/-- A supplied enumerated field value that validation must reject: nonempty
and not a member of the field's enumeration. -/
def badField (v : String) (l : List String) : Prop := v ≠ "" ∧ contains v l = false

instance (v : String) (l : List String) : Decidable (badField v l) :=
  inferInstanceAs (Decidable (v ≠ "" ∧ contains v l = false))

/-- The eleven query fields outside the four enumerated ones agree between
two option records. -/
def nonEnumAgree (o o' : OptionChainOptions) : Prop :=
  o'.StrikeCount = o.StrikeCount ∧ o'.IncludeQuotes = o.IncludeQuotes ∧
  o'.Interval = o.Interval ∧ o'.Strike = o.Strike ∧ o'.Range = o.Range ∧
  o'.FromDate = o.FromDate ∧ o'.ToDate = o.ToDate ∧ o'.Volatility = o.Volatility ∧
  o'.UnderlyingPrice = o.UnderlyingPrice ∧ o'.InterestRate = o.InterestRate ∧
  o'.DaysToExpiration = o.DaysToExpiration

/-- A raw chain with a given status and no expiration entries (used as the
base of the concrete inputs below). -/
def mkRawChain (st : String) : RawOptionChain :=
  ⟨"", st, zeroUnderlying, "", zeroDec, false, false, zeroDec, zeroDec, zeroDec,
   zeroDec, [], []⟩

/-- A contract at an integer strike price. -/
def contractAt (n : Int) : OptionData := { zeroOptionData with StrikePrice := ⟨n, 0⟩ }

/-- A second, distinguishable contract at an integer strike price. -/
def contractBAt (n : Int) : OptionData :=
  { zeroOptionData with StrikePrice := ⟨n, 0⟩, Symbol := "B" }

/-- Concrete response whose single strike entry wraps two records. -/
def rawTwoWrapped : RawOptionChain :=
  { mkRawChain "SUCCESS" with
      CallExpDateMap := [("2024-06-21:30", [("50", [contractAt 50, contractBAt 7])])] }

/-- The chain rawTwoWrapped decodes to: only the first wrapped record
survives. -/
def chainTwoWrapped : OptionChain :=
  { zeroOptionChain with
      Status := "SUCCESS",
      Calls := [⟨⟨2024, 6, 21⟩, 30, [contractAt 50]⟩] }

/-- Concrete response whose single strike entry wraps zero records. -/
def rawEmptyWrapped : RawOptionChain :=
  { mkRawChain "SUCCESS" with CallExpDateMap := [("2024-06-21:30", [("50", [])])] }

/-- Concrete response with a composite key that has no colon but is a
valid date. -/
def rawNoColon : RawOptionChain :=
  { mkRawChain "SUCCESS" with CallExpDateMap := [("2024-01-19", [("50", [contractAt 50])])] }

/-- Concrete response with a composite key whose date part does not parse. -/
def rawBadDate : RawOptionChain :=
  { mkRawChain "SUCCESS" with
      Symbol := "XYZ",
      CallExpDateMap := [("garbage:5", [("50", [contractAt 50])])] }

/-- The receiver state the failed decode of rawBadDate leaves behind:
symbol and status already copied, the calls slice still all zero. -/
def chainBadDate : OptionChain :=
  { zeroOptionChain with Symbol := "XYZ", Status := "SUCCESS", Calls := [zeroGroup] }

/-- Concrete response with two call expirations (given in descending day
order, with the strikes of the first given unsorted) and one put
expiration. -/
def rawTwoExp : RawOptionChain :=
  { mkRawChain "SUCCESS" with
      CallExpDateMap :=
        [("2024-03-15:10", [("100", [contractAt 100]), ("90", [contractAt 90]),
                            ("95", [contractAt 95])]),
         ("2024-01-19:5", [("50", [contractAt 50])])],
      PutExpDateMap := [("2024-01-19:5", [("50", [contractAt 50])])] }

/-- The chain rawTwoExp decodes to: expirations ascending by days to
expiration, strikes ascending by strike price. -/
def chainTwoExp : OptionChain :=
  { zeroOptionChain with
      Status := "SUCCESS",
      Calls := [⟨⟨2024, 1, 19⟩, 5, [contractAt 50]⟩,
                ⟨⟨2024, 3, 15⟩, 10, [contractAt 90, contractAt 95, contractAt 100]⟩],
      Puts := [⟨⟨2024, 1, 19⟩, 5, [contractAt 50]⟩] }

/-- Concrete response that decodes cleanly but reports a failed status. -/
def rawFailed : RawOptionChain :=
  { mkRawChain "FAILED" with CallExpDateMap := [("2024-01-19:5", [("50", [contractAt 50])])] }

/-- The chain rawFailed decodes to. -/
def chainFailed : OptionChain :=
  { zeroOptionChain with
      Status := "FAILED",
      Calls := [⟨⟨2024, 1, 19⟩, 5, [contractAt 50]⟩] }

/-- The raw numeric-field tokens of an option record with every field
absent. -/
def zeroRawOptionData : RawOptionData :=
  ⟨"", "", "", "", none, none, none, 0, 0, 0, none, none, none, none, 0, 0, 0,
   none, none, none, none, none, none, none, none, none, false, none, none,
   false, false, [], none, 0, "", none, "", "", false, none, none, none⟩

/-- An option record whose theoreticalVolatility field is the JSON string
NaN (every other field absent). -/
def rawTheoVolNaN : RawOptionData :=
  { zeroRawOptionData with TheoreticalVolatility := some "\"NaN\"" }

/-- An option record whose delta field is the JSON string NaN (every other
field absent). -/
def rawDeltaNaN : RawOptionData :=
  { zeroRawOptionData with Delta := some "\"NaN\"" }

/-- Query options with every field unset. -/
def emptyOptions : OptionChainOptions :=
  ⟨"", 0, none, "", 0, zeroDec, "", 0, 0, zeroDec, zeroDec, zeroDec, zeroDec, "", ""⟩

theorem Dec.ble_iff (a b : Dec) : a.ble b = true ↔ a.toRat ≤ b.toRat := by
  have hten : (10 : ℚ) ≠ 0 := by norm_num
  have key : ∀ x y : Dec, x.exp ≤ y.exp →
      (decide (x.man ≤ y.man * 10 ^ (y.exp - x.exp).toNat) = true ↔ x.toRat ≤ y.toRat) := by
    intro x y h
    simp only [decide_eq_true_eq, Dec.toRat]
    have hk : ((y.exp - x.exp).toNat : ℤ) = y.exp - x.exp := Int.toNat_of_nonneg (by omega)
    have h2 : (10 : ℚ) ^ ((y.exp - x.exp).toNat : ℕ) = (10 : ℚ) ^ (y.exp - x.exp) := by
      rw [← zpow_natCast, hk]
    have h3 : (10 : ℚ) ^ y.exp = (10 : ℚ) ^ x.exp * (10 : ℚ) ^ (y.exp - x.exp) := by
      rw [← zpow_add₀ hten]
      congr 1
      omega
    have h10 : (0 : ℚ) < (10 : ℚ) ^ x.exp := by positivity
    rw [h3, ← h2]
    rw [show (y.man : ℚ) * ((10 : ℚ) ^ x.exp * (10 : ℚ) ^ ((y.exp - x.exp).toNat : ℕ)) =
        ((y.man : ℚ) * (10 : ℚ) ^ ((y.exp - x.exp).toNat : ℕ)) * (10 : ℚ) ^ x.exp by ring]
    rw [mul_le_mul_right h10]
    constructor
    · intro hle
      exact_mod_cast hle
    · intro hle
      exact_mod_cast hle
  have key2 : ∀ x y : Dec, y.exp ≤ x.exp →
      (decide (x.man * 10 ^ (x.exp - y.exp).toNat ≤ y.man) = true ↔ x.toRat ≤ y.toRat) := by
    intro x y h
    simp only [decide_eq_true_eq, Dec.toRat]
    have hk : ((x.exp - y.exp).toNat : ℤ) = x.exp - y.exp := Int.toNat_of_nonneg (by omega)
    have h2 : (10 : ℚ) ^ ((x.exp - y.exp).toNat : ℕ) = (10 : ℚ) ^ (x.exp - y.exp) := by
      rw [← zpow_natCast, hk]
    have h3 : (10 : ℚ) ^ x.exp = (10 : ℚ) ^ y.exp * (10 : ℚ) ^ (x.exp - y.exp) := by
      rw [← zpow_add₀ hten]
      congr 1
      omega
    have h10 : (0 : ℚ) < (10 : ℚ) ^ y.exp := by positivity
    rw [h3, ← h2]
    rw [show (x.man : ℚ) * ((10 : ℚ) ^ y.exp * (10 : ℚ) ^ ((x.exp - y.exp).toNat : ℕ)) =
        ((x.man : ℚ) * (10 : ℚ) ^ ((x.exp - y.exp).toNat : ℕ)) * (10 : ℚ) ^ y.exp by ring]
    rw [mul_le_mul_right h10]
    constructor
    · intro hle
      exact_mod_cast hle
    · intro hle
      exact_mod_cast hle
  unfold Dec.ble
  split
  next h => exact key a b h
  next h => exact key2 a b (by omega)

theorem strikeLE_total (a b : OptionData) : strikeLE a b ∨ strikeLE b a := by
  unfold strikeLE
  rw [Dec.ble_iff, Dec.ble_iff]
  exact le_total _ _

theorem strikeLE_trans (a b c : OptionData) (h1 : strikeLE a b) (h2 : strikeLE b c) :
    strikeLE a c := by
  unfold strikeLE at h1 h2 ⊢
  rw [Dec.ble_iff] at h1 h2 ⊢
  exact le_trans h1 h2

theorem sortStrikes_sorted (l : List OptionData) : (sortStrikes l).Pairwise strikeLE :=
  @List.sorted_insertionSort OptionData strikeLE _ ⟨strikeLE_total⟩ ⟨strikeLE_trans⟩ l

theorem sortStrikes_perm (l : List OptionData) : (sortStrikes l).Perm l :=
  List.perm_insertionSort strikeLE l

theorem daysLE_total (a b : ExpirationGroup) : daysLE a b ∨ daysLE b a := le_total _ _

theorem daysLE_trans (a b c : ExpirationGroup) (h1 : daysLE a b) (h2 : daysLE b c) :
    daysLE a c := le_trans h1 h2

theorem sortGroups_sorted (l : List ExpirationGroup) : (sortGroups l).Pairwise daysLE :=
  @List.sorted_insertionSort ExpirationGroup daysLE _ ⟨daysLE_total⟩ ⟨daysLE_trans⟩ l

theorem sortGroups_perm (l : List ExpirationGroup) : (sortGroups l).Perm l :=
  List.perm_insertionSort daysLE l

theorem unwrapStrikes_length {v : List (String × List OptionData)} {l : List OptionData}
    (h : unwrapStrikes v = some l) : l.length = v.length := by
  induction v generalizing l with
  | nil => simp [unwrapStrikes] at h; simp [h]
  | cons s rest ih =>
    obtain ⟨k, ods⟩ := s
    cases ods with
    | nil => simp [unwrapStrikes] at h
    | cons od tl =>
      simp only [unwrapStrikes, Option.map_eq_some'] at h
      obtain ⟨l', hl', rfl⟩ := h
      simp [ih hl']

theorem unwrapStrikes_of_nonempty {v : List (String × List OptionData)}
    (h : ∀ s ∈ v, s.2 ≠ []) :
    unwrapStrikes v = some (v.map fun s => s.2.headI) := by
  induction v with
  | nil => simp [unwrapStrikes]
  | cons s rest ih =>
    obtain ⟨k, ods⟩ := s
    cases ods with
    | nil => exact absurd rfl (h (k, []) (by simp))
    | cons od tl =>
      have := ih (fun s hs => h s (by simp [hs]))
      simp [unwrapStrikes, this, List.headI]

theorem unwrapStrikes_none_of_empty {v : List (String × List OptionData)}
    {s : String × List OptionData} (hs : s ∈ v) (he : s.2 = []) :
    unwrapStrikes v = none := by
  induction v with
  | nil => simp at hs
  | cons t rest ih =>
    rcases List.mem_cons.mp hs with rfl | hs'
    · obtain ⟨k, ods⟩ := s
      simp only at he
      subst he
      simp [unwrapStrikes]
    · obtain ⟨k, ods⟩ := t
      cases ods with
      | nil => simp [unwrapStrikes]
      | cons od tl => simp [unwrapStrikes, ih hs']

theorem processEntry_ok_elim {k : String} {v : List (String × List OptionData)}
    {g : ExpirationGroup} (h : processEntry k v = .ok g) :
    ∃ s, unwrapStrikes v = some s ∧ g.Strikes = sortStrikes s := by
  simp only [processEntry] at h
  rcases hd : parseGoDate (goSplit k ':').headI with _ | d
  · rw [hd] at h; simp at h
  · rw [hd] at h
    rcases hp : (goSplit k ':')[1]? with _ | p
    · rw [hp] at h; simp at h
    · rw [hp] at h
      dsimp only at h
      rcases ha : goAtoi p with _ | n
      · rw [ha] at h; simp at h
      · rw [ha] at h
        dsimp only at h
        rcases hu : unwrapStrikes v with _ | s
        · rw [hu] at h; simp at h
        · rw [hu] at h
          simp only [EntryOut.ok.injEq] at h
          exact ⟨s, rfl, by rw [← h]⟩

theorem wfKey_elim {k : String} (h : wfKey k = true) :
    ∃ p d n, (goSplit k ':')[1]? = some p ∧
      parseGoDate (goSplit k ':').headI = some d ∧ goAtoi p = some n := by
  unfold wfKey at h
  rcases hp : (goSplit k ':')[1]? with _ | p
  · rw [hp] at h; simp at h
  · rw [hp] at h
    dsimp only at h
    rw [Bool.and_eq_true, Option.isSome_iff_exists, Option.isSome_iff_exists] at h
    obtain ⟨⟨d, hd⟩, ⟨n, hn⟩⟩ := h
    exact ⟨p, d, n, rfl, hd, hn⟩

theorem processEntry_ok_of_wf (k : String) (v : List (String × List OptionData))
    (hw : wfKey k = true) (hne : ∀ s ∈ v, s.2 ≠ []) :
    ∃ d n, processEntry k v = .ok ⟨d, n, sortStrikes (v.map fun s => s.2.headI)⟩ := by
  obtain ⟨p, d, n, hp, hd, hn⟩ := wfKey_elim hw
  refine ⟨d, n, ?_⟩
  simp only [processEntry]
  rw [hd]
  dsimp only
  rw [hp]
  dsimp only
  rw [hn]
  dsimp only
  rw [unwrapStrikes_of_nonempty hne]

theorem processEntry_panicked_of_wf {k : String} {v : List (String × List OptionData)}
    (hw : wfKey k = true) (he : ∃ s ∈ v, s.2 = []) :
    processEntry k v = .panicked "runtime error: index out of range" := by
  obtain ⟨p, d, n, hp, hd, hn⟩ := wfKey_elim hw
  obtain ⟨s, hs, hse⟩ := he
  simp only [processEntry]
  rw [hd]
  dsimp only
  rw [hp]
  dsimp only
  rw [hn]
  dsimp only
  rw [unwrapStrikes_none_of_empty hs hse]

theorem processEntry_ne_err_of_wf {k : String} {v : List (String × List OptionData)}
    (hw : wfKey k = true) (g : ExpirationGroup) (msg : String) :
    processEntry k v ≠ .err g msg := by
  obtain ⟨p, d, n, hp, hd, hn⟩ := wfKey_elim hw
  simp only [processEntry]
  rw [hd]
  dsimp only
  rw [hp]
  dsimp only
  rw [hn]
  dsimp only
  rcases hu : unwrapStrikes v with _ | s <;> simp

theorem processEntry_ne_ok_of_short {k : String} {v : List (String × List OptionData)}
    (hs : (goSplit k ':').length = 1) (g : ExpirationGroup) :
    processEntry k v ≠ .ok g := by
  intro h
  simp only [processEntry] at h
  have h1 : (goSplit k ':')[1]? = none := by
    apply List.getElem?_eq_none
    omega
  rcases hd : parseGoDate (goSplit k ':').headI with _ | d
  · rw [hd] at h; simp at h
  · rw [hd] at h
    dsimp only at h
    rw [h1] at h
    simp at h

theorem processExpMap_done_forall₂ {m : List (String × List (String × List OptionData))}
    {gs : List ExpirationGroup} (h : processExpMap m = .done gs) :
    List.Forall₂ (fun e g => processEntry e.1 e.2 = .ok g) m gs := by
  induction m generalizing gs with
  | nil =>
    simp only [processExpMap, MapLoopOut.done.injEq] at h
    subst h
    exact List.Forall₂.nil
  | cons e rest ih =>
    obtain ⟨k, v⟩ := e
    simp only [processExpMap] at h
    rcases hp : processEntry k v with g | ⟨g, m'⟩ | m'
    · rw [hp] at h
      dsimp only at h
      rcases hr : processExpMap rest with gs' | ⟨gs', m'⟩ | m'
      · rw [hr] at h
        simp only [MapLoopOut.done.injEq] at h
        subst h
        exact List.Forall₂.cons hp (ih hr)
      · rw [hr] at h; simp at h
      · rw [hr] at h; simp at h
    · rw [hp] at h; simp at h
    · rw [hp] at h; simp at h

theorem processExpMap_done_of {m : List (String × List (String × List OptionData))}
    (hw : ∀ e ∈ m, wfKey e.1 = true) (hne : ∀ e ∈ m, ∀ s ∈ e.2, s.2 ≠ []) :
    ∃ gs, processExpMap m = .done gs ∧
      List.Forall₂ (fun e g => g.Strikes = sortStrikes (e.2.map fun s => s.2.headI)) m gs := by
  induction m with
  | nil => exact ⟨[], rfl, List.Forall₂.nil⟩
  | cons e rest ih =>
    obtain ⟨k, v⟩ := e
    obtain ⟨d, n, hok⟩ :=
      processEntry_ok_of_wf k v (hw (k, v) (List.mem_cons_self _ _))
        (fun s hs => hne (k, v) (List.mem_cons_self _ _) s hs)
    obtain ⟨gs, hgs, hf⟩ :=
      ih (fun e he => hw e (List.mem_cons_of_mem _ he))
        (fun e he => hne e (List.mem_cons_of_mem _ he))
    refine ⟨⟨d, n, sortStrikes (v.map fun s => s.2.headI)⟩ :: gs, ?_, List.Forall₂.cons rfl hf⟩
    simp only [processExpMap]
    rw [hok]
    dsimp only
    rw [hgs]

theorem processExpMap_panicked_of {m : List (String × List (String × List OptionData))}
    (hw : ∀ e ∈ m, wfKey e.1 = true)
    (he : ∃ e ∈ m, ∃ s ∈ e.2, s.2 = []) : ∃ msg, processExpMap m = .panicked msg := by
  induction m with
  | nil => simp at he
  | cons e rest ih =>
    obtain ⟨k, v⟩ := e
    by_cases hv : ∃ s ∈ v, s.2 = []
    · refine ⟨"runtime error: index out of range", ?_⟩
      simp only [processExpMap]
      rw [processEntry_panicked_of_wf (hw (k, v) (List.mem_cons_self _ _)) hv]
    · obtain ⟨e', he', hs⟩ := he
      have hrest : ∃ e ∈ rest, ∃ s ∈ e.2, s.2 = [] := by
        rcases List.mem_cons.mp he' with rfl | h'
        · exact absurd hs hv
        · exact ⟨e', h', hs⟩
      obtain ⟨msg, hmsg⟩ := ih (fun e he => hw e (List.mem_cons_of_mem _ he)) hrest
      rcases hp : processEntry k v with g | ⟨g, m'⟩ | m'
      · refine ⟨msg, ?_⟩
        simp only [processExpMap]
        rw [hp]
        dsimp only
        rw [hmsg]
      · exact absurd hp
          (processEntry_ne_err_of_wf (hw (k, v) (List.mem_cons_self _ _)) g m')
      · refine ⟨m', ?_⟩
        simp only [processExpMap]
        rw [hp]

theorem chainUnmarshal_ok_elim {raw : RawOptionChain} {c0 c : OptionChain}
    (h : chainUnmarshal raw c0 = .ok c) :
    ∃ cg pg, processExpMap raw.CallExpDateMap = .done cg ∧
      processExpMap raw.PutExpDateMap = .done pg ∧ c = normalizedChain raw cg pg := by
  simp only [chainUnmarshal] at h
  rcases hc : processExpMap raw.CallExpDateMap with cg | ⟨cg, m⟩ | m
  · rw [hc] at h
    dsimp only at h
    rcases hp : processExpMap raw.PutExpDateMap with pg | ⟨pg, m⟩ | m
    · rw [hp] at h
      dsimp only at h
      simp only [DecodeOutcome.ok.injEq] at h
      exact ⟨cg, pg, rfl, rfl, by rw [← h]; rfl⟩
    · rw [hp] at h; simp at h
    · rw [hp] at h; simp at h
  · rw [hc] at h; simp at h
  · rw [hc] at h; simp at h

theorem chainUnmarshal_ok_intro {raw : RawOptionChain} (c0 : OptionChain)
    {cg pg : List ExpirationGroup}
    (hc : processExpMap raw.CallExpDateMap = .done cg)
    (hp : processExpMap raw.PutExpDateMap = .done pg) :
    chainUnmarshal raw c0 = .ok (normalizedChain raw cg pg) := by
  simp only [chainUnmarshal]
  rw [hc]
  dsimp only
  rw [hp]
  rfl

theorem chainUnmarshal_panicked_calls {raw : RawOptionChain} (c0 : OptionChain) {m : String}
    (hc : processExpMap raw.CallExpDateMap = .panicked m) :
    chainUnmarshal raw c0 = .panicked m := by
  simp only [chainUnmarshal]
  rw [hc]

theorem chainUnmarshal_panicked_puts {raw : RawOptionChain} (c0 : OptionChain)
    {cg : List ExpirationGroup} {m : String}
    (hc : processExpMap raw.CallExpDateMap = .done cg)
    (hp : processExpMap raw.PutExpDateMap = .panicked m) :
    chainUnmarshal raw c0 = .panicked m := by
  simp only [chainUnmarshal]
  rw [hc]
  dsimp only
  rw [hp]

theorem processExpMap_result_of_wf {m : List (String × List (String × List OptionData))}
    (hw : ∀ e ∈ m, wfKey e.1 = true) :
    (∃ gs, processExpMap m = .done gs) ∨ (∃ msg, processExpMap m = .panicked msg) := by
  induction m with
  | nil => exact Or.inl ⟨[], rfl⟩
  | cons e rest ih =>
    obtain ⟨k, v⟩ := e
    rcases hp : processEntry k v with g | ⟨g, m'⟩ | m'
    · rcases ih (fun e he => hw e (List.mem_cons_of_mem _ he)) with ⟨gs, hgs⟩ | ⟨msg, hmsg⟩
      · refine Or.inl ⟨g :: gs, ?_⟩
        simp only [processExpMap]
        rw [hp]
        dsimp only
        rw [hgs]
      · refine Or.inr ⟨msg, ?_⟩
        simp only [processExpMap]
        rw [hp]
        dsimp only
        rw [hmsg]
    · exact absurd hp (processEntry_ne_err_of_wf (hw (k, v) (List.mem_cons_self _ _)) g m')
    · refine Or.inr ⟨m', ?_⟩
      simp only [processExpMap]
      rw [hp]

theorem forall₂_mem_left {α β : Type} {R : α → β → Prop} {l₁ : List α} {l₂ : List β}
    (h : List.Forall₂ R l₁ l₂) {a : α} (ha : a ∈ l₁) : ∃ b ∈ l₂, R a b := by
  induction h with
  | nil => simp at ha
  | cons hr ht ih =>
    rcases List.mem_cons.mp ha with rfl | ha'
    · exact ⟨_, List.mem_cons_self _ _, hr⟩
    · obtain ⟨b, hb, hrb⟩ := ih ha'
      exact ⟨b, List.mem_cons_of_mem _ hb, hrb⟩

theorem forall₂_mem_right {α β : Type} {R : α → β → Prop} {l₁ : List α} {l₂ : List β}
    (h : List.Forall₂ R l₁ l₂) {b : β} (hb : b ∈ l₂) : ∃ a ∈ l₁, R a b := by
  induction h with
  | nil => simp at hb
  | cons hr ht ih =>
    rcases List.mem_cons.mp hb with rfl | hb'
    · exact ⟨_, List.mem_cons_self _ _, hr⟩
    · obtain ⟨a, ha, hra⟩ := ih hb'
      exact ⟨a, List.mem_cons_of_mem _ ha, hra⟩

theorem forall₂_map_eq {α β γ : Type} {R : α → β → Prop} {l₁ : List α} {l₂ : List β}
    (h : List.Forall₂ R l₁ l₂) (f : α → γ) (g : β → γ)
    (hfg : ∀ a b, R a b → f a = g b) : l₁.map f = l₂.map g := by
  induction h with
  | nil => rfl
  | cons hr ht ih => simp [hfg _ _ hr, ih]

theorem forall₂_strikes_perm {m : List (String × List (String × List OptionData))}
    {gs : List ExpirationGroup}
    (h : List.Forall₂ (fun e g => g.Strikes = sortStrikes (e.2.map fun s => s.2.headI)) m gs) :
    (gs.flatMap fun g => g.Strikes).Perm (firstRecords m) := by
  induction h with
  | nil => simp [firstRecords]
  | cons hr ht ih =>
    rename_i e g m' gs'
    simp only [List.flatMap_cons, firstRecords] at ih ⊢
    exact List.Perm.append (hr ▸ sortStrikes_perm _) ih

theorem perm_flatMap {α β : Type} {l₁ l₂ : List α} (h : l₁.Perm l₂) (f : α → List β) :
    (l₁.flatMap f).Perm (l₂.flatMap f) := by
  rw [List.flatMap_def, List.flatMap_def]
  exact (h.map f).flatten

/-- Claim C5: in every successfully decoded chain, each expiration
group's strikes are ascending by strike price (at the value level of the
exact decimals) and the calls and puts sequences are each ascending by
days to expiration. -/
theorem c5_decoded_chain_sorted (raw : RawOptionChain) (c0 c : OptionChain)
    (h : chainUnmarshal raw c0 = .ok c) :
    (∀ g ∈ c.Calls, g.Strikes.Pairwise
        (fun a b => a.StrikePrice.toRat ≤ b.StrikePrice.toRat)) ∧
    (∀ g ∈ c.Puts, g.Strikes.Pairwise
        (fun a b => a.StrikePrice.toRat ≤ b.StrikePrice.toRat)) ∧
    c.Calls.Pairwise (fun a b => a.DaysTilExp ≤ b.DaysTilExp) ∧
    c.Puts.Pairwise (fun a b => a.DaysTilExp ≤ b.DaysTilExp) := by
  obtain ⟨cg, pg, hc, hp, rfl⟩ := chainUnmarshal_ok_elim h
  simp only [normalizedChain]
  have hgroup : ∀ (m : List (String × List (String × List OptionData)))
      (gs : List ExpirationGroup), processExpMap m = .done gs →
      ∀ g ∈ sortGroups gs, g.Strikes.Pairwise
        (fun a b => a.StrikePrice.toRat ≤ b.StrikePrice.toRat) := by
    intro m gs hdone g hg
    have hmem : g ∈ gs := (sortGroups_perm gs).mem_iff.mp hg
    obtain ⟨e, he, hok⟩ := forall₂_mem_right (processExpMap_done_forall₂ hdone) hmem
    obtain ⟨s, hu, hstr⟩ := processEntry_ok_elim hok
    rw [hstr]
    exact (sortStrikes_sorted s).imp (fun hab => (Dec.ble_iff _ _).mp hab)
  exact ⟨hgroup _ _ hc, hgroup _ _ hp, sortGroups_sorted cg, sortGroups_sorted pg⟩

/-- Claim C9: a successful decode yields exactly one group per
composite key of each map and, per group, one contract per strike key of
its expiration; empty maps yield empty sequences. -/
theorem c9_group_counts (raw : RawOptionChain) (c0 c : OptionChain)
    (h : chainUnmarshal raw c0 = .ok c) :
    c.Calls.length = raw.CallExpDateMap.length ∧
    c.Puts.length = raw.PutExpDateMap.length ∧
    (c.Calls.map fun g => g.Strikes.length).Perm
      (raw.CallExpDateMap.map fun e => e.2.length) ∧
    (c.Puts.map fun g => g.Strikes.length).Perm
      (raw.PutExpDateMap.map fun e => e.2.length) ∧
    (raw.CallExpDateMap = [] → c.Calls = []) ∧
    (raw.PutExpDateMap = [] → c.Puts = []) := by
  obtain ⟨cg, pg, hc, hp, rfl⟩ := chainUnmarshal_ok_elim h
  simp only [normalizedChain]
  have key : ∀ (m : List (String × List (String × List OptionData)))
      (gs : List ExpirationGroup), processExpMap m = .done gs →
      (sortGroups gs).length = m.length ∧
      ((sortGroups gs).map fun g => g.Strikes.length).Perm
        (m.map fun e => e.2.length) ∧
      (m = [] → sortGroups gs = []) := by
    intro m gs hdone
    have hf := processExpMap_done_forall₂ hdone
    have hmapeq : m.map (fun e => e.2.length) = gs.map (fun g => g.Strikes.length) := by
      apply forall₂_map_eq hf
      intro e g hok
      obtain ⟨s, hu, hstr⟩ := processEntry_ok_elim hok
      rw [hstr, (sortStrikes_perm s).length_eq, unwrapStrikes_length hu]
    refine ⟨?_, ?_, ?_⟩
    · rw [(sortGroups_perm gs).length_eq, hf.length_eq]
    · exact ((sortGroups_perm gs).map _).trans (hmapeq ▸ List.Perm.refl _)
    · intro hm
      subst hm
      rw [List.forall₂_nil_left_iff] at hf
      subst hf
      rfl
  obtain ⟨h1, h2, h3⟩ := key _ _ hc
  obtain ⟨h4, h5, h6⟩ := key _ _ hp
  exact ⟨h1, h4, h2, h5, h3, h6⟩

/-- Claim C1 (corrected).  As stated the claim is false: the code indexes
position 0 of each wrapped list unchecked.  Amended: for a response whose
composite keys are well formed, when every strike entry's wrapped list is
nonempty the decode succeeds even if lists hold two or more records, and
exactly the first record of each wrapped list reaches the chain (the extra
records are silently dropped); when some wrapped list is empty the decode
panics with an index-out-of-range runtime error instead of surfacing a
FormatError. -/
theorem c1_amended_unwrap (raw : RawOptionChain) (c0 : OptionChain) (hw : wfAllKeys raw) :
    (allWrappedNonempty raw →
      ∃ c, chainUnmarshal raw c0 = .ok c ∧
        (c.Calls.flatMap fun g => g.Strikes).Perm (firstRecords raw.CallExpDateMap) ∧
        (c.Puts.flatMap fun g => g.Strikes).Perm (firstRecords raw.PutExpDateMap)) ∧
    (someWrappedEmpty raw → ∃ msg, chainUnmarshal raw c0 = .panicked msg) := by
  have hwc : ∀ e ∈ raw.CallExpDateMap, wfKey e.1 = true :=
    fun e he => hw e (List.mem_append_left _ he)
  have hwp : ∀ e ∈ raw.PutExpDateMap, wfKey e.1 = true :=
    fun e he => hw e (List.mem_append_right _ he)
  constructor
  · intro hne
    obtain ⟨cg, hcg, hfc⟩ :=
      processExpMap_done_of hwc (fun e he => hne e (List.mem_append_left _ he))
    obtain ⟨pg, hpg, hfp⟩ :=
      processExpMap_done_of hwp (fun e he => hne e (List.mem_append_right _ he))
    refine ⟨normalizedChain raw cg pg, chainUnmarshal_ok_intro c0 hcg hpg, ?_, ?_⟩
    · simp only [normalizedChain]
      exact (perm_flatMap (sortGroups_perm cg) _).trans (forall₂_strikes_perm hfc)
    · simp only [normalizedChain]
      exact (perm_flatMap (sortGroups_perm pg) _).trans (forall₂_strikes_perm hfp)
  · intro hse
    obtain ⟨e, he, hs⟩ := hse
    rcases List.mem_append.mp he with hec | hep
    · obtain ⟨msg, hmsg⟩ := processExpMap_panicked_of hwc ⟨e, hec, hs⟩
      exact ⟨msg, chainUnmarshal_panicked_calls c0 hmsg⟩
    · rcases processExpMap_result_of_wf hwc with ⟨cg, hcg⟩ | ⟨msg, hmsg⟩
      · obtain ⟨msg, hmsg⟩ := processExpMap_panicked_of hwp ⟨e, hep, hs⟩
        exact ⟨msg, chainUnmarshal_panicked_puts c0 hcg hmsg⟩
      · exact ⟨msg, chainUnmarshal_panicked_calls c0 hmsg⟩

/-- Claim C2 (corrected).  As stated the claim is false: a key with no
colon does not generally yield a FormatError.  Amended: a response with a
composite key that splits into exactly one part never decodes
successfully; when such a key heads the call map and its whole text parses
as a date, the decode panics with an index-out-of-range runtime error
(the crash the claim rules out); when the first split part of the heading
key is not a valid date, the decode returns the date FormatError with the
receiver partially assigned. -/
theorem c2_amended_split (raw : RawOptionChain) (c0 : OptionChain) :
    ((∃ e ∈ raw.CallExpDateMap ++ raw.PutExpDateMap, (goSplit e.1 ':').length = 1) →
      ∀ c, chainUnmarshal raw c0 ≠ .ok c) ∧
    (∀ k v rest, raw.CallExpDateMap = (k, v) :: rest →
      (goSplit k ':').length = 1 →
      (parseGoDate (goSplit k ':').headI).isSome = true →
      chainUnmarshal raw c0 = .panicked "runtime error: index out of range") ∧
    (∀ k v rest, raw.CallExpDateMap = (k, v) :: rest →
      parseGoDate (goSplit k ':').headI = none →
      chainUnmarshal raw c0 =
        .errOut { copiedChain raw with Calls := zeroGroup :: rest.map fun _ => zeroGroup }
          ("parsing time " ++ (goSplit k ':').headI ++ " as 2006-01-02: cannot parse")) := by
  refine ⟨?_, ?_, ?_⟩
  · rintro ⟨e, he, hlen⟩ c h
    obtain ⟨cg, pg, hc, hp, _⟩ := chainUnmarshal_ok_elim h
    rcases List.mem_append.mp he with hec | hep
    · obtain ⟨g, hg, hok⟩ := forall₂_mem_left (processExpMap_done_forall₂ hc) hec
      exact processEntry_ne_ok_of_short hlen g hok
    · obtain ⟨g, hg, hok⟩ := forall₂_mem_left (processExpMap_done_forall₂ hp) hep
      exact processEntry_ne_ok_of_short hlen g hok
  · intro k v rest hmap hlen hsome
    obtain ⟨d, hd⟩ := Option.isSome_iff_exists.mp hsome
    have hpe : processEntry k v = .panicked "runtime error: index out of range" := by
      simp only [processEntry]
      rw [hd]
      dsimp only
      rw [List.getElem?_eq_none (by omega)]
    have hmc : processExpMap raw.CallExpDateMap =
        .panicked "runtime error: index out of range" := by
      rw [hmap]
      simp only [processExpMap]
      rw [hpe]
    exact chainUnmarshal_panicked_calls c0 hmc
  · intro k v rest hmap hd
    have hpe : processEntry k v =
        .err zeroGroup ("parsing time " ++ (goSplit k ':').headI ++
          " as 2006-01-02: cannot parse") := by
      simp only [processEntry]
      rw [hd]
    have hmc : processExpMap raw.CallExpDateMap =
        .failed (zeroGroup :: rest.map fun _ => zeroGroup)
          ("parsing time " ++ (goSplit k ':').headI ++ " as 2006-01-02: cannot parse") := by
      rw [hmap]
      simp only [processExpMap]
      rw [hpe]
    simp only [chainUnmarshal]
    rw [hmc]

/-- Claim C7 (corrected).  As stated the claim is false: on a failed
decode the in-place receiver is left partially populated, not unchanged.
Amended: whenever the decode fails with an error, the service operation
returns no chain (a nil chain pointer) alongside the error, so no partial
chain ever reaches the caller. -/
theorem c7_amended_abort (raw : RawOptionChain) (c' : OptionChain) (m : String)
    (h : chainUnmarshal raw zeroOptionChain = .errOut c' m) :
    fetchOptionChain none raw = .ret none (some m) := by
  simp only [fetchOptionChain, fetchOptionChain.fetchDecoded]
  rw [h]

/-- Claim C6: when a response body decodes but its status differs from
SUCCESS, the service returns the decoded chain together with an error
carrying the status string; when the status is SUCCESS it returns the
chain with no error. -/
theorem c6_status_error (raw : RawOptionChain) (c : OptionChain)
    (h : chainUnmarshal raw zeroOptionChain = .ok c) :
    (c.Status ≠ "SUCCESS" →
      fetchOptionChain none raw = .ret (some c) (some ("error: " ++ c.Status))) ∧
    (c.Status = "SUCCESS" → fetchOptionChain none raw = .ret (some c) none) := by
  constructor <;> intro hs <;>
    simp only [fetchOptionChain, fetchOptionChain.fetchDecoded] <;>
    rw [h] <;> simp [hs]

theorem validateFromOptionType_eq (o : OptionChainOptions) :
    validateFromOptionType o =
      if badField o.OptionType validOptionTypes then
        (o, some (errEnum "optionType" validOptionTypes))
      else
        ({ o with OptionType :=
            if o.OptionType = "" then defaultOptionType else o.OptionType }, none) := by
  by_cases he : o.OptionType = "" <;>
    by_cases hc : contains o.OptionType validOptionTypes <;>
    simp [validateFromOptionType, badField, he, hc]

theorem validateFromExpMonth_eq (o : OptionChainOptions) :
    validateFromExpMonth o =
      if badField o.ExpMonth validExpMonths then
        (o, some (errEnum "expMonth" validExpMonths))
      else if badField o.OptionType validOptionTypes then
        ({ o with ExpMonth := if o.ExpMonth = "" then defaultExpMonth else o.ExpMonth },
         some (errEnum "optionType" validOptionTypes))
      else
        ({ o with
            ExpMonth := if o.ExpMonth = "" then defaultExpMonth else o.ExpMonth,
            OptionType :=
              if o.OptionType = "" then defaultOptionType else o.OptionType }, none) := by
  by_cases he : o.ExpMonth = "" <;>
    by_cases hc : contains o.ExpMonth validExpMonths <;>
    simp [validateFromExpMonth, badField, he, hc, validateFromOptionType_eq]

theorem validateFromStrategy_eq (o : OptionChainOptions) :
    validateFromStrategy o =
      if badField o.Strategy validStrategies then
        (o, some (errEnum "strategy" validStrategies))
      else if badField o.ExpMonth validExpMonths then
        ({ o with Strategy := if o.Strategy = "" then defaultStrategy else o.Strategy },
         some (errEnum "expMonth" validExpMonths))
      else if badField o.OptionType validOptionTypes then
        ({ o with
            Strategy := if o.Strategy = "" then defaultStrategy else o.Strategy,
            ExpMonth := if o.ExpMonth = "" then defaultExpMonth else o.ExpMonth },
         some (errEnum "optionType" validOptionTypes))
      else
        ({ o with
            Strategy := if o.Strategy = "" then defaultStrategy else o.Strategy,
            ExpMonth := if o.ExpMonth = "" then defaultExpMonth else o.ExpMonth,
            OptionType :=
              if o.OptionType = "" then defaultOptionType else o.OptionType }, none) := by
  by_cases he : o.Strategy = "" <;>
    by_cases hc : contains o.Strategy validStrategies <;>
    simp [validateFromStrategy, badField, he, hc, validateFromExpMonth_eq]

theorem validate_eq (o : OptionChainOptions) :
    validate o =
      if badField o.ContractType validContractTypes then
        (o, some (errEnum "contractType" validContractTypes))
      else if badField o.Strategy validStrategies then
        ({ o with ContractType :=
            if o.ContractType = "" then defaultContractType else o.ContractType },
         some (errEnum "strategy" validStrategies))
      else if badField o.ExpMonth validExpMonths then
        ({ o with
            ContractType :=
              if o.ContractType = "" then defaultContractType else o.ContractType,
            Strategy := if o.Strategy = "" then defaultStrategy else o.Strategy },
         some (errEnum "expMonth" validExpMonths))
      else if badField o.OptionType validOptionTypes then
        ({ o with
            ContractType :=
              if o.ContractType = "" then defaultContractType else o.ContractType,
            Strategy := if o.Strategy = "" then defaultStrategy else o.Strategy,
            ExpMonth := if o.ExpMonth = "" then defaultExpMonth else o.ExpMonth },
         some (errEnum "optionType" validOptionTypes))
      else (defaulted o, none) := by
  by_cases he : o.ContractType = "" <;>
    by_cases hc : contains o.ContractType validContractTypes <;>
    simp [validate, badField, he, hc, validateFromStrategy_eq, defaulted]

theorem defaultedField_good (v dflt : String) (l : List String) (hd : contains dflt l = true)
    (hdne : dflt ≠ "") (h : ¬ badField v l) :
    (if v = "" then dflt else v) ≠ "" ∧ contains (if v = "" then dflt else v) l = true := by
  by_cases hv : v = ""
  · simp [hv, hd, hdne, badField]
  · simp only [hv, badField, ne_eq, not_false_eq_true, true_and, not_and] at h
    simp [hv, h]

/-- Claim C8: validation fills each empty enumerated field with its
documented default and passes members through unchanged; a nonmember value
in any of the four fields fails with the error naming that field's allowed
set (the first offending field in check order reports). -/
theorem c8_enum_validation (o : OptionChainOptions) :
    (¬ badField o.ContractType validContractTypes →
      ¬ badField o.Strategy validStrategies →
      ¬ badField o.ExpMonth validExpMonths →
      ¬ badField o.OptionType validOptionTypes →
      validate o = (defaulted o, none)) ∧
    (badField o.ContractType validContractTypes →
      (validate o).2 = some (errEnum "contractType" validContractTypes)) ∧
    (¬ badField o.ContractType validContractTypes →
      badField o.Strategy validStrategies →
      (validate o).2 = some (errEnum "strategy" validStrategies)) ∧
    (¬ badField o.ContractType validContractTypes →
      ¬ badField o.Strategy validStrategies →
      badField o.ExpMonth validExpMonths →
      (validate o).2 = some (errEnum "expMonth" validExpMonths)) ∧
    (¬ badField o.ContractType validContractTypes →
      ¬ badField o.Strategy validStrategies →
      ¬ badField o.ExpMonth validExpMonths →
      badField o.OptionType validOptionTypes →
      (validate o).2 = some (errEnum "optionType" validOptionTypes)) := by
  refine ⟨fun h1 h2 h3 h4 => ?_, fun h1 => ?_, fun h1 h2 => ?_, fun h1 h2 h3 => ?_,
    fun h1 h2 h3 h4 => ?_⟩ <;> simp [validate_eq, *]

theorem validate_ok_elim {o o' : OptionChainOptions} (h : validate o = (o', none)) :
    (¬ badField o.ContractType validContractTypes ∧
     ¬ badField o.Strategy validStrategies ∧
     ¬ badField o.ExpMonth validExpMonths ∧
     ¬ badField o.OptionType validOptionTypes) ∧ o' = defaulted o := by
  rw [validate_eq] at h
  split_ifs at h with h1 h2 h3 h4 <;> simp_all

/-- Claim C10: validation is idempotent - a second run on the result of
a successful run succeeds and changes nothing, each documented default
being a member of its enumeration - and validation never modifies any
field outside the four enumerated ones. -/
theorem c10_validate_idempotent :
    (∀ o o' : OptionChainOptions, validate o = (o', none) → validate o' = (o', none)) ∧
    (∀ o : OptionChainOptions, nonEnumAgree o (validate o).1) ∧
    contains defaultContractType validContractTypes = true ∧
    contains defaultStrategy validStrategies = true ∧
    contains defaultExpMonth validExpMonths = true ∧
    contains defaultOptionType validOptionTypes = true := by
  refine ⟨?_, ?_, by decide, by decide, by decide, by decide⟩
  · intro o o' h
    obtain ⟨⟨h1, h2, h3, h4⟩, rfl⟩ := validate_ok_elim h
    have f1 := defaultedField_good o.ContractType defaultContractType validContractTypes
      (by decide) (by decide) h1
    have f2 := defaultedField_good o.Strategy defaultStrategy validStrategies
      (by decide) (by decide) h2
    have f3 := defaultedField_good o.ExpMonth defaultExpMonth validExpMonths
      (by decide) (by decide) h3
    have f4 := defaultedField_good o.OptionType defaultOptionType validOptionTypes
      (by decide) (by decide) h4
    rw [validate_eq]
    rw [if_neg (by simp [badField, defaulted, f1.2]), if_neg (by simp [badField, defaulted, f2.2]),
        if_neg (by simp [badField, defaulted, f3.2]), if_neg (by simp [badField, defaulted, f4.2])]
    simp only [defaulted, Prod.mk.injEq, and_true]
    simp [f1.1, f2.1, f3.1, f4.1]
  · intro o
    rw [validate_eq]
    split_ifs <;> simp [nonEnumAgree, defaulted]

theorem toLower_eq_self_of_isDigit (c : Char) (h : c.isDigit = true) : c.toLower = c := by
  have h2 : c.val ≤ 57 := by
    simp only [Char.isDigit, Bool.and_eq_true, decide_eq_true_eq] at h
    exact h.2
  have h3 : c.toNat ≤ 57 := by
    rw [UInt32.le_def] at h2
    exact h2
  simp only [Char.toLower]
  rw [if_neg (by omega)]

theorem isDigit_facts (c : Char) (h : c.isDigit = true) :
    ¬(c = '+' ∨ c = '-') ∧ ¬(c = 'i' ∨ c = 'I') ∧ ¬(c = 'n' ∨ c = 'N') ∧
    c ≠ '.' ∧ c.toLower ≠ 'i' := by
  refine ⟨?_, ?_, ?_, ?_, ?_⟩
  · rintro (rfl | rfl) <;> exact absurd h (by decide)
  · rintro (rfl | rfl) <;> exact absurd h (by decide)
  · rintro (rfl | rfl) <;> exact absurd h (by decide)
  · rintro rfl
    exact absurd h (by decide)
  · intro he
    rw [toLower_eq_self_of_isDigit c h] at he
    subst he
    exact absurd h (by decide)

theorem takeWhile_cons_head {c : Char} {t : List Char}
    (h : (c :: t).takeWhile Char.isDigit ≠ []) : c.isDigit = true := by
  by_cases hc : c.isDigit
  · exact hc
  · rw [List.takeWhile_cons_of_neg (by simp [hc])] at h
    exact absurd rfl h

theorem afterSign_head_digit {neg : Bool} {cs1 : List Char} {p : FloatParts}
    (h : jsonNumAfterSign neg cs1 = some p) :
    ∃ d t, cs1 = d :: t ∧ d.isDigit = true := by
  have hds : cs1.takeWhile Char.isDigit ≠ [] := by
    intro hds
    simp [jsonNumAfterSign, hds] at h
  cases cs1 with
  | nil => simp at hds
  | cons d t => exact ⟨d, t, rfl, takeWhile_cons_head hds⟩

theorem jsonSign_not_minus {cs : List Char} (h : ∀ r, cs ≠ '-' :: r) :
    jsonSign cs = (false, cs) := by
  unfold jsonSign
  split
  · next r => exact absurd rfl (h r)
  · rfl

theorem goSign_other {cs : List Char} (h1 : ∀ r, cs ≠ '-' :: r) (h2 : ∀ r, cs ≠ '+' :: r) :
    goSign cs = (false, cs) := by
  unfold goSign
  split
  · next r => exact absurd rfl (h1 r)
  · next r => exact absurd rfl (h2 r)
  · rfl

theorem goAfterSign_of_jsonAfterSign {neg : Bool} {cs1 : List Char} {p : FloatParts}
    (h : jsonNumAfterSign neg cs1 = some p) : goFloatAfterSign neg cs1 = some p := by
  have hds : cs1.takeWhile Char.isDigit ≠ [] := by
    intro hds
    simp [jsonNumAfterSign, hds] at h
  by_cases hz : (cs1.takeWhile Char.isDigit).headI = '0' ∧
      (cs1.takeWhile Char.isDigit).length ≠ 1
  · simp [jsonNumAfterSign, hds, hz] at h
  · rcases hrest : cs1.dropWhile Char.isDigit with _ | ⟨c2, r2⟩
    · have hj : jsonNumAfterSign neg cs1 =
          expTail neg (cs1.takeWhile Char.isDigit) [] [] := by
        simp [jsonNumAfterSign, hds, hz, hrest]
      have hg : goFloatAfterSign neg cs1 =
          expTail neg (cs1.takeWhile Char.isDigit) [] [] := by
        simp [goFloatAfterSign, goMantissa, hds, hrest]
      rw [hg, ← hj, h]
    · by_cases hc2 : c2 = '.'
      · subst hc2
        by_cases hfs : r2.takeWhile Char.isDigit = []
        · simp [jsonNumAfterSign, hds, hz, hrest, hfs] at h
        · have hj : jsonNumAfterSign neg cs1 =
              expTail neg (cs1.takeWhile Char.isDigit) (r2.takeWhile Char.isDigit)
                (r2.dropWhile Char.isDigit) := by
            simp [jsonNumAfterSign, hds, hz, hrest, hfs]
          have hg : goFloatAfterSign neg cs1 =
              expTail neg (cs1.takeWhile Char.isDigit) (r2.takeWhile Char.isDigit)
                (r2.dropWhile Char.isDigit) := by
            simp [goFloatAfterSign, goMantissa, hds, hrest]
          rw [hg, ← hj, h]
      · have hj : jsonNumAfterSign neg cs1 =
            expTail neg (cs1.takeWhile Char.isDigit) [] (c2 :: r2) := by
          simp [jsonNumAfterSign, hds, hz, hrest, hc2]
        have hg : goFloatAfterSign neg cs1 =
            expTail neg (cs1.takeWhile Char.isDigit) [] (c2 :: r2) := by
          simp [goFloatAfterSign, goMantissa, hds, hrest, hc2]
        rw [hg, ← hj, h]

theorem goFloatParts_of_jsonNumParts {cs : List Char} {p : FloatParts}
    (h : jsonNumParts cs = some p) : goFloatParts cs = some p := by
  simp only [jsonNumParts] at h
  by_cases hm : ∃ r, cs = '-' :: r
  · obtain ⟨r, rfl⟩ := hm
    rw [show jsonSign ('-' :: r) = (true, r) from rfl] at h
    dsimp only at h
    simp only [goFloatParts, show goSign ('-' :: r) = (true, r) from rfl]
    exact goAfterSign_of_jsonAfterSign h
  · have hjs := jsonSign_not_minus (fun r hr => hm ⟨r, hr⟩)
    rw [hjs] at h
    dsimp only at h
    obtain ⟨d, t, rfl, hd⟩ := afterSign_head_digit h
    have hgs : goSign (d :: t) = (false, d :: t) :=
      goSign_other
        (fun r hr => (isDigit_facts d hd).1 (Or.inr (List.cons.inj hr).1))
        (fun r hr => (isDigit_facts d hd).1 (Or.inl (List.cons.inj hr).1))
    simp only [goFloatParts, hgs]
    exact goAfterSign_of_jsonAfterSign h

theorem lowerEq_false_of_digit {d : Char} (hd : d.isDigit = true) (t rest : List Char) :
    lowerEq (d :: t) ('i' :: rest) = false := by
  have hi : Char.toLower 'i' = 'i' := rfl
  simp [lowerEq, hi, (isDigit_facts d hd).2.2.2.2]

theorem goSpecial_none_of_json {cs : List Char} {p : FloatParts}
    (h : jsonNumParts cs = some p) : goSpecial cs = none := by
  simp only [jsonNumParts] at h
  by_cases hm : ∃ r, cs = '-' :: r
  · obtain ⟨r, rfl⟩ := hm
    rw [show jsonSign ('-' :: r) = (true, r) from rfl] at h
    dsimp only at h
    obtain ⟨d, t, rfl, hd⟩ := afterSign_head_digit h
    simp only [goSpecial]
    rw [if_pos (by simp)]
    have hinf : ("inf".toList : List Char) = 'i' :: ['n', 'f'] := rfl
    have hinfty : ("infinity".toList : List Char) = 'i' :: ['n', 'f', 'i', 'n', 'i', 't', 'y'] := rfl
    simp only [infCheck, hinf, hinfty, lowerEq_false_of_digit hd]
    simp
  · have hjs := jsonSign_not_minus (fun r hr => hm ⟨r, hr⟩)
    rw [hjs] at h
    dsimp only at h
    obtain ⟨d, t, rfl, hd⟩ := afterSign_head_digit h
    simp only [goSpecial]
    rw [if_neg (isDigit_facts d hd).1, if_neg (isDigit_facts d hd).2.1,
      if_neg (isDigit_facts d hd).2.2.1]

theorem goParseFloat_of_json {s : String} {p : FloatParts}
    (h : jsonNumParts s.toList = some p) (hr : p.toDec.overflowsF64 = false) :
    goParseFloat s = .ok (.finite p.toDec) := by
  unfold goParseFloat
  rw [goSpecial_none_of_json h]
  rw [goFloatParts_of_jsonNumParts h]
  simp [hr]

theorem goParseFloat_range_of_json {s : String} {p : FloatParts}
    (h : jsonNumParts s.toList = some p) (hr : p.toDec.overflowsF64 = true) :
    goParseFloat s =
      .err (.inf p.neg) ("strconv.ParseFloat: parsing " ++ s ++ ": value out of range") := by
  unfold goParseFloat
  rw [goSpecial_none_of_json h]
  rw [goFloatParts_of_jsonNumParts h]
  simp [hr]

theorem goParseFloat_syntaxErr_of_head {s : String} {c : Char}
    (hh : s.toList.head? = some c)
    (h1 : ¬(c = '+' ∨ c = '-')) (h2 : ¬(c = 'i' ∨ c = 'I')) (h3 : ¬(c = 'n' ∨ c = 'N'))
    (h4 : c.isDigit = false) (h5 : c ≠ '.') :
    goParseFloat s =
      .err (.finite zeroDec) ("strconv.ParseFloat: parsing " ++ s ++ ": invalid syntax") := by
  obtain ⟨t, ht⟩ : ∃ t, s.toList = c :: t := by
    rcases hl : s.toList with _ | ⟨c', t⟩
    · rw [hl] at hh; simp at hh
    · rw [hl] at hh
      simp only [List.head?_cons, Option.some.injEq] at hh
      exact ⟨t, by rw [hh]⟩
  have hspec : goSpecial s.toList = none := by
    rw [ht]
    simp only [goSpecial]
    rw [if_neg h1, if_neg h2, if_neg h3]
  have hsign : goSign s.toList = (false, s.toList) := by
    rw [ht]
    exact goSign_other (fun r hr => h1 (Or.inr (List.cons.inj hr).1))
      (fun r hr => h1 (Or.inl (List.cons.inj hr).1))
  have htw : (c :: t).takeWhile Char.isDigit = [] := by
    rw [List.takeWhile_cons]
    simp [h4]
  have hdw : (c :: t).dropWhile Char.isDigit = c :: t := by
    rw [List.dropWhile_cons]
    simp [h4]
  have hgm : goMantissa (c :: t) = none := by
    simp only [goMantissa]
    rw [htw, hdw]
    split
    · next r2 heq => exact absurd (List.cons.inj heq).1 h5
    · simp
  have hparts : goFloatParts s.toList = none := by
    simp only [goFloatParts, hsign]
    simp only [goFloatAfterSign]
    rw [ht, hgm]
  unfold goParseFloat
  rw [hspec]
  dsimp only
  rw [hparts]

/-- Claim C4 (corrected).  As stated the claim is false: a grammatically
valid decimal literal whose magnitude reaches the float64 overflow
threshold (for example 1e999) makes strconv.ParseFloat report ErrRange,
which the sentinel decoder propagates as a failure.  Amended: the decoder
maps the exact token NaN (quoted) to IEEE NaN; every token matching the
JSON number grammar whose value stays below the overflow threshold
decodes to its numeric value; a grammatical number token at or beyond the
threshold fails with the range error; every other JSON scalar token - a
different string token, a null, a boolean, or the opening of an object or
array - fails with a DecodeError. -/
theorem c4_sentinel_decoder :
    (naNFloatUnmarshal "\"NaN\"" = .ok .nan ∧ GoFloat.isNaN .nan = true) ∧
    (∀ (s : String) (p : FloatParts), jsonNumParts s.toList = some p →
      p.toDec.overflowsF64 = false → naNFloatUnmarshal s = .ok (.finite p.toDec)) ∧
    (∀ (s : String) (p : FloatParts), jsonNumParts s.toList = some p →
      p.toDec.overflowsF64 = true →
      naNFloatUnmarshal s =
        .error ("strconv.ParseFloat: parsing " ++ s ++ ": value out of range")) ∧
    (∀ s : String, jsonOtherTok s → ∃ m, naNFloatUnmarshal s = .error m) := by
  refine ⟨⟨by decide, rfl⟩, ?_, ?_, ?_⟩
  · intro s p h hr
    have hne : s ≠ "\"NaN\"" := by
      intro heq
      rw [heq] at h
      have hz : jsonNumParts ("\"NaN\"" : String).toList = none := by decide
      rw [hz] at h
      simp at h
    unfold naNFloatUnmarshal
    rw [if_neg hne, goParseFloat_of_json h hr]
  · intro s p h hr
    have hne : s ≠ "\"NaN\"" := by
      intro heq
      rw [heq] at h
      have hz : jsonNumParts ("\"NaN\"" : String).toList = none := by decide
      rw [hz] at h
      simp at h
    unfold naNFloatUnmarshal
    rw [if_neg hne, goParseFloat_range_of_json h hr]
  · intro s hcase
    rcases hcase with ⟨hq, hne⟩ | rfl | rfl | rfl | hq | hq
    · refine ⟨"strconv.ParseFloat: parsing " ++ s ++ ": invalid syntax", ?_⟩
      unfold naNFloatUnmarshal
      rw [if_neg hne,
        goParseFloat_syntaxErr_of_head hq (by decide) (by decide) (by decide) (by decide)
          (by decide)]
    · exact ⟨"strconv.ParseFloat: parsing null: invalid syntax", by decide⟩
    · exact ⟨"strconv.ParseFloat: parsing true: invalid syntax", by decide⟩
    · exact ⟨"strconv.ParseFloat: parsing false: invalid syntax", by decide⟩
    · have hne : s ≠ "\"NaN\"" := by
        intro heq
        rw [heq] at hq
        exact absurd hq (by decide)
      refine ⟨"strconv.ParseFloat: parsing " ++ s ++ ": invalid syntax", ?_⟩
      unfold naNFloatUnmarshal
      rw [if_neg hne,
        goParseFloat_syntaxErr_of_head hq (by decide) (by decide) (by decide) (by decide)
          (by decide)]
    · have hne : s ≠ "\"NaN\"" := by
        intro heq
        rw [heq] at hq
        exact absurd hq (by decide)
      refine ⟨"strconv.ParseFloat: parsing " ++ s ++ ": invalid syntax", ?_⟩
      unfold naNFloatUnmarshal
      rw [if_neg hne,
        goParseFloat_syntaxErr_of_head hq (by decide) (by decide) (by decide) (by decide)
          (by decide)]

/-- Claim C3 (code bug).  The claim matches the spec but not the code:
the raw decoding struct types theoreticalVolatility as a plain float64
(optionChain.go line 154) while every other greek/theoretical field uses
the naNFloat sentinel decoder, so a contract whose theoreticalVolatility
is the JSON string NaN fails to decode; the same token in delta or
theoreticalOptionValue decodes to NaN. -/
theorem c3_theoretical_volatility_plain :
    optionDataUnmarshal rawTheoVolNaN =
      .error "json: cannot unmarshal \"NaN\" into Go value of type float64" ∧
    decodeNaNField (some "\"NaN\"") = .ok .nan ∧
    optionDataUnmarshal rawDeltaNaN = .ok { zeroOptionData with Delta := .nan } ∧
    optionDataUnmarshal
        { zeroRawOptionData with TheoreticalOptionValue := some "\"NaN\"" } =
      .ok { zeroOptionData with TheoreticalOptionValue := .nan } ∧
    GoFloat.isNaN .nan = true := by
  refine ⟨by decide, by decide, by decide, by decide, rfl⟩

/-- Claim C1 counterexample: a response whose single strike entry wraps
two records decodes successfully, keeping only the first record, instead
of failing with a FormatError. -/
theorem c1_counterexample :
    (rawTwoWrapped.CallExpDateMap.map fun e => e.2.map fun s => s.2.length) = [[2]] ∧
    chainUnmarshal rawTwoWrapped zeroOptionChain = .ok chainTwoWrapped ∧
    chainTwoWrapped.Calls.map (fun g => g.Strikes) = [[contractAt 50]] := by
  refine ⟨by decide, by decide, by decide⟩

/-- Claim C1 witness: the amended theorem applied to the concrete
two-record response (decode succeeds) and to the concrete empty-list
response (decode panics). -/
theorem c1_witness :
    (chainUnmarshal rawTwoWrapped zeroOptionChain).isOk = true ∧
    (chainUnmarshal rawEmptyWrapped zeroOptionChain).isPanicked = true := by
  obtain ⟨c, hc, _⟩ :=
    (c1_amended_unwrap rawTwoWrapped zeroOptionChain (by decide)).1 (by decide)
  obtain ⟨m, hm⟩ :=
    (c1_amended_unwrap rawEmptyWrapped zeroOptionChain (by decide)).2 (by decide)
  constructor
  · rw [hc]; rfl
  · rw [hm]; rfl

/-- Claim C2 counterexample: the colonless key 2024-01-19 is a valid
date, and decoding a response carrying it panics instead of failing with
a FormatError. -/
theorem c2_counterexample :
    (rawNoColon.CallExpDateMap.map fun e => (goSplit e.1 ':').length) = [1] ∧
    parseGoDate "2024-01-19" = some ⟨2024, 1, 19⟩ ∧
    chainUnmarshal rawNoColon zeroOptionChain =
      .panicked "runtime error: index out of range" := by
  refine ⟨by decide, by decide, by decide⟩

/-- Claim C2 witness: the amended theorem applied to the concrete
colonless-key response and to the concrete bad-date-key response. -/
theorem c2_witness :
    chainUnmarshal rawNoColon zeroOptionChain ≠ .ok zeroOptionChain ∧
    chainUnmarshal rawNoColon zeroOptionChain =
      .panicked "runtime error: index out of range" ∧
    chainUnmarshal rawBadDate zeroOptionChain =
      .errOut { copiedChain rawBadDate with Calls := [zeroGroup] }
        ("parsing time " ++ (goSplit "garbage:5" ':').headI ++
          " as 2006-01-02: cannot parse") := by
  refine ⟨?_, ?_, ?_⟩
  · exact (c2_amended_split rawNoColon zeroOptionChain).1
      ⟨("2024-01-19", [("50", [contractAt 50])]), by decide, by decide⟩ zeroOptionChain
  · exact (c2_amended_split rawNoColon zeroOptionChain).2.1
      "2024-01-19" [("50", [contractAt 50])] [] rfl (by decide) (by decide)
  · exact (c2_amended_split rawBadDate zeroOptionChain).2.2
      "garbage:5" [("50", [contractAt 50])] [] rfl (by decide)

/-- Claim C4 witness: the decoder theorem applied to the tokens NaN
(quoted), -12.25e1 (in range), 2e308 (beyond the overflow threshold),
null and a non-numeric string. -/
theorem c4_witness :
    naNFloatUnmarshal "\"NaN\"" = .ok .nan ∧
    naNFloatUnmarshal "-12.25e1" =
      .ok (.finite (FloatParts.mk true ['1', '2'] ['2', '5'] false (some ['1'])).toDec) ∧
    naNFloatUnmarshal "2e308" =
      .error "strconv.ParseFloat: parsing 2e308: value out of range" ∧
    (naNFloatUnmarshal "null").isOk = false ∧
    (naNFloatUnmarshal "\"abc\"").isOk = false := by
  refine ⟨c4_sentinel_decoder.1.1,
    c4_sentinel_decoder.2.1 "-12.25e1" _ (by decide) (by decide),
    c4_sentinel_decoder.2.2.1 "2e308"
      ⟨false, ['2'], [], false, some ['3', '0', '8']⟩ (by decide) (by decide), ?_, ?_⟩
  · obtain ⟨m, hm⟩ := c4_sentinel_decoder.2.2.2 "null" (Or.inr (Or.inl rfl))
    rw [hm]
    rfl
  · obtain ⟨m, hm⟩ := c4_sentinel_decoder.2.2.2 "\"abc\"" (Or.inl ⟨by decide, by decide⟩)
    rw [hm]
    rfl

/-- Claim C4 counterexample: 1e999 matches the JSON and ParseFloat number
grammars (a valid decimal floating-point literal), yet the sentinel
decoder rejects it with the propagated range error instead of producing
its value. -/
theorem c4_counterexample :
    jsonNumParts ("1e999" : String).toList =
      some ⟨false, ['1'], [], false, some ['9', '9', '9']⟩ ∧
    naNFloatUnmarshal "1e999" =
      .error "strconv.ParseFloat: parsing 1e999: value out of range" := by
  refine ⟨by decide, by decide⟩

/-- Claim C5 witness: the sortedness theorem applied to a concrete
response given with descending days and unsorted strikes. -/
theorem c5_witness :
    chainUnmarshal rawTwoExp zeroOptionChain = .ok chainTwoExp ∧
    chainTwoExp.Calls.Pairwise (fun a b => a.DaysTilExp ≤ b.DaysTilExp) ∧
    (chainTwoExp.Calls.map fun g => g.DaysTilExp) = [5, 10] := by
  refine ⟨by decide, ?_, by decide⟩
  exact (c5_decoded_chain_sorted rawTwoExp zeroOptionChain chainTwoExp (by decide)).2.2.1

/-- Claim C6 witness: the status theorem applied to a concrete FAILED
response and to a concrete SUCCESS response. -/
theorem c6_witness :
    fetchOptionChain none rawFailed = .ret (some chainFailed) (some "error: FAILED") ∧
    fetchOptionChain none rawTwoExp = .ret (some chainTwoExp) none := by
  refine ⟨(c6_status_error rawFailed chainFailed (by decide)).1 (by decide),
    (c6_status_error rawTwoExp chainTwoExp (by decide)).2 rfl⟩

/-- Claim C7 counterexample: after the failed decode of a response with
symbol XYZ and a bad composite key, the receiver differs from its
pre-decode zero value - its symbol field was already overwritten. -/
theorem c7_counterexample :
    chainUnmarshal rawBadDate zeroOptionChain =
      .errOut chainBadDate "parsing time garbage as 2006-01-02: cannot parse" ∧
    chainBadDate ≠ zeroOptionChain ∧
    chainBadDate.Symbol = "XYZ" ∧ zeroOptionChain.Symbol = "" := by
  refine ⟨by decide, by decide, by decide, by decide⟩

/-- Claim C7 witness: the amended theorem applied to the concrete
bad-date response. -/
theorem c7_witness :
    fetchOptionChain none rawBadDate =
      .ret none (some "parsing time garbage as 2006-01-02: cannot parse") :=
  c7_amended_abort rawBadDate chainBadDate _ (by decide)

/-- Claim C8 witness: the validation theorem applied to all-empty
options, to a bogus strategy, and to the member strategy VERTICAL. -/
theorem c8_witness :
    validate emptyOptions = (defaulted emptyOptions, none) ∧
    (validate { emptyOptions with Strategy := "BOGUS" }).2 =
      some (errEnum "strategy" validStrategies) ∧
    (validate { emptyOptions with Strategy := "VERTICAL" }).1.Strategy = "VERTICAL" := by
  refine ⟨(c8_enum_validation emptyOptions).1 (by decide) (by decide) (by decide) (by decide),
    (c8_enum_validation _).2.2.1 (by decide) (by decide), ?_⟩
  have h := (c8_enum_validation { emptyOptions with Strategy := "VERTICAL" }).1
    (by decide) (by decide) (by decide) (by decide)
  rw [h]
  decide

/-- Claim C9 witness: the counting theorem applied to a concrete
two-expiration response and to a response with an empty put map. -/
theorem c9_witness :
    chainUnmarshal rawTwoExp zeroOptionChain = .ok chainTwoExp ∧
    chainTwoExp.Calls.length = rawTwoExp.CallExpDateMap.length ∧
    chainTwoExp.Puts.length = rawTwoExp.PutExpDateMap.length ∧
    chainTwoWrapped.Puts = [] := by
  refine ⟨by decide, (c9_group_counts rawTwoExp zeroOptionChain chainTwoExp (by decide)).1,
    (c9_group_counts rawTwoExp zeroOptionChain chainTwoExp (by decide)).2.1,
    (c9_group_counts rawTwoWrapped zeroOptionChain chainTwoWrapped (by decide)).2.2.2.2.2 rfl⟩

/-- Claim C10 witness: idempotence applied to the defaulted empty
options, and field preservation at the empty options. -/
theorem c10_witness :
    validate (defaulted emptyOptions) = (defaulted emptyOptions, none) ∧
    nonEnumAgree emptyOptions (validate emptyOptions).1 := by
  refine ⟨c10_validate_idempotent.1 emptyOptions (defaulted emptyOptions) (by decide),
    c10_validate_idempotent.2.1 emptyOptions⟩

end TDA
